import Mathlib

/-! Verification of the phira-mp C++ server core.

Shallow embedding of the wire codec (`include/binary_protocol.h`,
`include/commands.h`) and of the room state machine (`include/room.h`,
`src/room.cpp`).

Conventions of the embedding:
* A byte is a `Nat` (values `< 256` on the real wire); a buffer is `List Nat`
  consumed from the front, so the `(data_, size_, pos_)` view of `BinaryReader` becomes
  the not-yet-consumed suffix of the buffer.
* `std::runtime_error` thrown by the reader becomes `Except String`; the
  carried message is the C++ exception text.
* Fixed-width little-endian integers are modelled by their unsigned bit
  pattern (`memcpy` of an `intN_t`/`float` is exactly its little-endian byte
  sequence, so `read_i32`/`read_f32` return the raw `u32` pattern).
* `size_t` overflow in `BinaryReader::take` is modelled separately by
  `take_eof_check`, which performs the addition modulo `2 ^ 64` exactly as the
  C++ check does; the list-based `take` below is the overflow-free behaviour.
-/

namespace PhiraMP

/-- A wire buffer: a list of bytes, consumed from the front. -/
abbrev Bytes := List Nat

/-- Result of a decoding step: the decoded value and the unread suffix. -/
abbrev DecRes (α : Type) := Except String (α × Bytes)

/-- Sequencing of decoding steps (the C++ reader methods are called one after
another, each exception aborting the whole decode). -/
def dbind {α β : Type} (x : DecRes α) (f : α → Bytes → DecRes β) : DecRes β :=
  match x with
  | .ok (a, rest) => f a rest
  | .error e => .error e

/-- Whether a decode succeeded (no exception was thrown). -/
def decSucceeded {α : Type} : DecRes α → Bool
  | .ok _ => true
  | .error _ => false

instance decResDecEq {α : Type} [DecidableEq α] : DecidableEq (DecRes α) :=
  fun x y =>
  match x, y with
  | .ok a, .ok b =>
    if h : a = b then .isTrue (by rw [h]) else .isFalse (by simp [h])
  | .ok a, .error f => .isFalse (by simp)
  | .error e, .ok b => .isFalse (by simp)
  | .error e, .error f =>
    if h : e = f then .isTrue (by rw [h]) else .isFalse (by simp [h])

/-- Source: `BinaryReader::read_byte`: fails with `unexpected EOF` past the end. -/
def read_byte : Bytes → DecRes Nat
  | [] => .error "unexpected EOF"
  | b :: rest => .ok (b, rest)

/-- Source: `BinaryReader::take (n)` in the overflow-free case `pos_ + n ≤ 2^64`:
yields the next `n` bytes or fails with `unexpected EOF`.  The `size_t`
wrap-around of the C++ bounds check is modelled by `take_eof_check`. -/
def take (n : Nat) (l : Bytes) : DecRes Bytes :=
  if l.length < n then .error "unexpected EOF" else .ok (l.take n, l.drop n)

/-- Source: `size_t` has 64 bits on the target platform. -/
def USIZE : Nat := 2 ^ 64

/-- The bounds check of `BinaryReader::take`: the C++ code throws iff
`pos_ + n > size_` where the sum is computed in `size_t`, i.e. modulo
`2 ^ 64`.  Returns `true` iff the exception is thrown. -/
def take_eof_check (pos n size : Nat) : Bool :=
  decide (size < (pos + n) % USIZE)

/-- Source: `BinaryReader::read_uleb`: little-endian base-128; each iteration reads one
byte, so the loop consumes at most the remaining buffer and is terminating by
construction. -/
def read_uleb : Bytes → DecRes Nat
  | [] => .error "unexpected EOF"
  | b :: rest =>
    if b &&& 0x80 = 0 then .ok (b &&& 0x7f, rest)
    else
      match read_uleb rest with
      | .ok (v, r) => .ok ((b &&& 0x7f) ||| (v <<< 7), r)
      | .error e => .error e

/-- Source: `BinaryReader::read_u8`. -/
def read_u8 : Bytes → DecRes Nat := read_byte

/-- Source: `BinaryReader::read_i8` (the bit pattern of the `int8_t`). -/
def read_i8 : Bytes → DecRes Nat := read_byte

/-- Source: `BinaryReader::read_u16`: `take(2)` then little-endian `memcpy`. -/
def read_u16 : Bytes → DecRes Nat
  | b0 :: b1 :: rest => .ok (b0 + 256 * b1, rest)
  | _ => .error "unexpected EOF"

/-- Source: `BinaryReader::read_u32`: `take(4)` then little-endian `memcpy`. -/
def read_u32 : Bytes → DecRes Nat
  | b0 :: b1 :: b2 :: b3 :: rest =>
    .ok (b0 + 256 * b1 + 65536 * b2 + 16777216 * b3, rest)
  | _ => .error "unexpected EOF"

/-- Source: `BinaryReader::read_i32` (the bit pattern of the `int32_t`). -/
def read_i32 : Bytes → DecRes Nat := read_u32

/-- Source: `BinaryReader::read_f32` (the bit pattern of the IEEE-754 single). -/
def read_f32 : Bytes → DecRes Nat := read_u32

/-- Source: `BinaryReader::read_u64`: `take(8)` then little-endian `memcpy`. -/
def read_u64 : Bytes → DecRes Nat
  | b0 :: b1 :: b2 :: b3 :: b4 :: b5 :: b6 :: b7 :: rest =>
    .ok (b0 + 2 ^ 8 * b1 + 2 ^ 16 * b2 + 2 ^ 24 * b3 + 2 ^ 32 * b4 +
         2 ^ 40 * b5 + 2 ^ 48 * b6 + 2 ^ 56 * b7, rest)
  | _ => .error "unexpected EOF"

/-- Source: `BinaryReader::read_bool`: one byte, `true` iff it equals 1. -/
def read_bool (l : Bytes) : DecRes Bool :=
  dbind (read_byte l) fun b rest => .ok (b == 1, rest)

/-- Source: `BinaryReader::read_string`: ULEB length then that many raw bytes. -/
def read_string (l : Bytes) : DecRes Bytes :=
  dbind (read_uleb l) fun len l => take len l

/-- Source: `BinaryReader::read_varchar (max_len)`: like `read_string` but fails with
`string too long` when the declared length exceeds the cap. -/
def read_varchar (max_len : Nat) (l : Bytes) : DecRes Bytes :=
  dbind (read_uleb l) fun len l =>
    if max_len < len then .error "string too long" else take len l

/-- Source: `BinaryWriter::write_byte` / `write_u8` (the `uint8_t` cast keeps the low
eight bits). -/
def write_u8 (v : Nat) : Bytes := [v % 256]

/-- Source: `BinaryWriter::write_i8` (the bit pattern of the `int8_t`). -/
def write_i8 : Nat → Bytes := write_u8

/-- Source: `BinaryWriter::write_uleb`: the do-while loop emits seven payload bits per
byte, setting the continuation bit while the remainder is non-zero. -/
def write_uleb (v : Nat) : Bytes :=
  if _h : v < 128 then [v]
  else ((v &&& 0x7f) ||| 0x80) :: write_uleb (v >>> 7)
  termination_by v
  decreasing_by
    simp only [Nat.shiftRight_eq_div_pow]
    omega

/-- Source: `BinaryWriter::write_u16`: little-endian `memcpy` of the `uint16_t`. -/
def write_u16 (v : Nat) : Bytes := [v % 256, v / 256 % 256]

/-- Source: `BinaryWriter::write_u32`: little-endian `memcpy` of the `uint32_t`. -/
def write_u32 (v : Nat) : Bytes :=
  [v % 256, v / 2 ^ 8 % 256, v / 2 ^ 16 % 256, v / 2 ^ 24 % 256]

/-- Source: `BinaryWriter::write_i32` (bit pattern). -/
def write_i32 : Nat → Bytes := write_u32

/-- Source: `BinaryWriter::write_f32` (bit pattern). -/
def write_f32 : Nat → Bytes := write_u32

/-- Source: `BinaryWriter::write_u64`: little-endian `memcpy` of the `uint64_t`. -/
def write_u64 (v : Nat) : Bytes :=
  [v % 256, v / 2 ^ 8 % 256, v / 2 ^ 16 % 256, v / 2 ^ 24 % 256,
   v / 2 ^ 32 % 256, v / 2 ^ 40 % 256, v / 2 ^ 48 % 256, v / 2 ^ 56 % 256]

/-- Source: `BinaryWriter::write_bool`. -/
def write_bool (b : Bool) : Bytes := [if b then 1 else 0]

/-- Source: `BinaryWriter::write_string`: ULEB length then the raw bytes. -/
def write_string (s : Bytes) : Bytes := write_uleb s.length ++ s

/-! ## Half-precision floats (`binary_protocol.h`, `f32_to_f16` / `f16_to_f32`)

Both C++ functions only manipulate the integer bit patterns obtained by
`memcpy`, so they are embedded as functions on bit patterns: `f32_to_f16`
takes the `u32` pattern of the single and returns the `u16` pattern of the
half; `f16_to_f32` is the reverse direction. -/

/-- Source: `f32_to_f16` from `binary_protocol.h`, on the `u32` bit pattern.  The
trailing `% 65536` is the `(uint16_t)` cast of each return statement; `exp`
is the C++ `int32_t` exponent. -/
def f32_to_f16 (bits : Nat) : Nat :=
  let sign := (bits >>> 16) &&& 0x8000
  let exp : Int := (((bits >>> 23) &&& 0xFF : Nat) : Int) - 127
  let man := bits &&& 0x7FFFFF
  if exp = 128 then
    if man ≠ 0 then (sign ||| 0x7C00 ||| (man >>> 13)) % 65536
    else (sign ||| 0x7C00) % 65536
  else if 15 < exp then (sign ||| 0x7C00) % 65536
  else if -15 < exp then
    (sign ||| ((exp + 15).toNat <<< 10) ||| (man >>> 13)) % 65536
  else if -24 ≤ exp then
    (sign ||| ((man ||| 0x800000) >>> (-1 - exp + 13).toNat)) % 65536
  else sign % 65536

/-- The denormal-normalisation loop of `f16_to_f32`
(`while(!(man&0x400)){man<<=1;exp--;}`).  The C++ loop is entered only with
`0 < man < 0x400`, so it runs at most ten times; the fuel of 11 is never
exhausted on those inputs. -/
def normalize16 : Nat → Nat → Int → Nat × Int
  | 0, man, exp => (man, exp)
  | fuel + 1, man, exp =>
    if man &&& 0x400 = 0 then normalize16 fuel (man <<< 1) (exp - 1)
    else (man, exp)

/-- Source: `f16_to_f32` from `binary_protocol.h`, on bit patterns (result is the
`u32` pattern of the single).  In the denormal branch the C++ `uint32_t exp`
wraps below zero; since it is only ever used in `exp + 127 - 15`, which is
re-wrapped by the `uint32_t` arithmetic back to the mathematical value
(always ≥ 103 here), the `Int` exponent with `toNat` is the same value. -/
def f16_to_f32 (v : Nat) : Nat :=
  let sign := (v &&& 0x8000) <<< 16
  let exp := (v >>> 10) &&& 0x1F
  let man := v &&& 0x3FF
  if exp = 0 then
    if man = 0 then sign
    else
      let p := normalize16 11 man 1
      let man2 := p.1 &&& 0x3FF
      sign ||| ((p.2 + 127 - 15).toNat <<< 23) ||| (man2 <<< 13)
  else if exp = 31 then sign ||| 0x7F800000 ||| (man <<< 13)
  else sign ||| ((exp + 127 - 15) <<< 23) ||| (man <<< 13)

/-- The `u32` bit pattern of `-std::numeric_limits<float>::infinity()`,
which `Room::reset_game_time` stores into the `game_time` of each member. -/
def NEG_INF_F32_BITS : Nat := 0xFF800000

/-! ## Wire data types (`include/commands.h`)

C++ `std::string` values are byte lists; `int32_t`/`float` fields carry their
unsigned bit patterns (see the codec above).  The C++ structs with a `type`
tag and per-tag fields are embedded as inductives with one constructor per
tag, each carrying exactly the fields the tagged read/write code touches. -/

/-- Source: `CompactPos`: two f16 bit patterns. -/
structure CompactPos where
  x_bits : Nat
  y_bits : Nat
deriving DecidableEq

/-- Source: `CompactPos::read_binary`. -/
def CompactPos.read_binary (l : Bytes) : DecRes CompactPos :=
  dbind (read_u16 l) fun x l =>
  dbind (read_u16 l) fun y l =>
  .ok (⟨x, y⟩, l)

/-- Source: `CompactPos::write_binary`. -/
def CompactPos.write_binary (p : CompactPos) : Bytes :=
  write_u16 p.x_bits ++ write_u16 p.y_bits

/-- C locale `isalnum((unsigned char)c)`: ASCII digits and letters. -/
def isalnum (c : Nat) : Bool :=
  (48 ≤ c && c ≤ 57) || (65 ≤ c && c ≤ 90) || (97 ≤ c && c ≤ 122)

/-- Source: `RoomId::validate`: non-empty, at most 20 bytes, every byte a dash (45),
an underscore (95) or alphanumeric. -/
def RoomId.validate (s : Bytes) : Bool :=
  if s.isEmpty || 20 < s.length then false
  else s.all fun c => c == 45 || c == 95 || isalnum c

/-- Source: `RoomId::read_binary`: `read_varchar(20)` then `validate`, throwing
`invalid room id` on failure.  The decoded id is its byte list. -/
def RoomId.read_binary (l : Bytes) : DecRes Bytes :=
  dbind (read_varchar 20 l) fun s l =>
    if RoomId.validate s then .ok (s, l) else .error "invalid room id"

/-- Source: `RoomId::write_binary`. -/
def RoomId.write_binary (s : Bytes) : Bytes := write_string s

/-- Reading `n` consecutive values (the `for (i = 0; i < n; i++)` loops of
`Touches`/`Judges`/`TouchFrame`). -/
def readCount {α : Type} (rd : Bytes → DecRes α) : Nat → Bytes → DecRes (List α)
  | 0, l => .ok ([], l)
  | n + 1, l =>
    dbind (rd l) fun a l =>
    dbind (readCount rd n l) fun as l =>
    .ok (a :: as, l)

/-- Writing a list of values one after the other. -/
def writeAll {α : Type} (wr : α → Bytes) : List α → Bytes
  | [] => []
  | a :: as => wr a ++ writeAll wr as

/-- Source: `TouchFrame`: an f32 time bit pattern and `(int8 id, CompactPos)` pairs. -/
structure TouchFrame where
  time : Nat
  points : List (Nat × CompactPos)
deriving DecidableEq

/-- Source: `TouchFrame::read_binary`. -/
def TouchFrame.read_binary (l : Bytes) : DecRes TouchFrame :=
  dbind (read_f32 l) fun time l =>
  dbind (read_uleb l) fun n l =>
  dbind (readCount (fun l =>
      dbind (read_i8 l) fun id l =>
      dbind (CompactPos.read_binary l) fun pos l =>
      .ok ((id, pos), l)) n l) fun pts l =>
  .ok (⟨time, pts⟩, l)

/-- Source: `TouchFrame::write_binary`. -/
def TouchFrame.write_binary (f : TouchFrame) : Bytes :=
  write_f32 f.time ++ write_uleb f.points.length ++
  writeAll (fun p => write_i8 p.1 ++ CompactPos.write_binary p.2) f.points

/-- Source: `JudgeEvent`: time/line/note bit patterns and the raw judgement byte.
`JudgeEvent::read_binary` stores the byte with `static_cast<Judgement>`
without any range check, so the field is the raw byte. -/
structure JudgeEvent where
  time : Nat
  line_id : Nat
  note_id : Nat
  judgement : Nat
deriving DecidableEq

/-- Source: `JudgeEvent::read_binary`. -/
def JudgeEvent.read_binary (l : Bytes) : DecRes JudgeEvent :=
  dbind (read_f32 l) fun time l =>
  dbind (read_u32 l) fun line l =>
  dbind (read_u32 l) fun note l =>
  dbind (read_u8 l) fun j l =>
  .ok (⟨time, line, note, j⟩, l)

/-- Source: `JudgeEvent::write_binary`. -/
def JudgeEvent.write_binary (e : JudgeEvent) : Bytes :=
  write_f32 e.time ++ write_u32 e.line_id ++ write_u32 e.note_id ++
  write_u8 e.judgement

/-- Source: `UserInfo`: i32 id pattern, name bytes, monitor flag. -/
structure UserInfo where
  id : Nat
  name : Bytes
  monitor : Bool
deriving DecidableEq

/-- Source: `UserInfo::read_binary`. -/
def UserInfo.read_binary (l : Bytes) : DecRes UserInfo :=
  dbind (read_i32 l) fun id l =>
  dbind (read_string l) fun name l =>
  dbind (read_bool l) fun mon l =>
  .ok (⟨id, name, mon⟩, l)

/-- Source: `UserInfo::write_binary`. -/
def UserInfo.write_binary (u : UserInfo) : Bytes :=
  write_i32 u.id ++ write_string u.name ++ write_bool u.monitor

/-- Client-facing `RoomState` (`RoomStateType` tag plus the optional chart id
that only the `SelectChart` tag serialises). -/
inductive RoomState
  | select_chart (chart_id : Option Nat)
  | waiting_for_ready
  | playing
deriving DecidableEq

/-- Source: `RoomState::write_binary`: the `u8` tag, and for `SelectChart` a presence
bool followed by the i32 chart id. -/
def RoomState.write_binary : RoomState → Bytes
  | .select_chart (some c) => write_u8 0 ++ write_bool true ++ write_i32 c
  | .select_chart none => write_u8 0 ++ write_bool false
  | .waiting_for_ready => write_u8 1
  | .playing => write_u8 2

/-- Modelled from the spec: the client-side decoder of `RoomState` (this
repository only contains the server, which never reads a `RoomState`).  Per
§6 a tagged variant is a `u8` kind plus the per-kind payload written above,
and an invalid discriminant is a protocol error. -/
def RoomState.read_binary (l : Bytes) : DecRes RoomState :=
  dbind (read_u8 l) fun tag l =>
  if tag = 0 then
    dbind (read_bool l) fun present l =>
    if present then
      dbind (read_i32 l) fun c l => .ok (.select_chart (some c), l)
    else .ok (.select_chart none, l)
  else if tag = 1 then .ok (.waiting_for_ready, l)
  else if tag = 2 then .ok (.playing, l)
  else .error "invalid room state"

/-- Source: `ClientRoomState`: the per-user room snapshot sent on re-authentication.
The C++ `users` field is an `unordered_map`; its serialisation iterates the
map, which is embedded as the association list in iteration order. -/
structure ClientRoomState where
  id : Bytes
  state : RoomState
  live : Bool
  locked : Bool
  cycle_flag : Bool
  is_host : Bool
  is_ready : Bool
  users : List (Nat × UserInfo)
deriving DecidableEq

/-- Source: `ClientRoomState::write_binary`. -/
def ClientRoomState.write_binary (c : ClientRoomState) : Bytes :=
  RoomId.write_binary c.id ++ c.state.write_binary ++
  write_bool c.live ++ write_bool c.locked ++ write_bool c.cycle_flag ++
  write_bool c.is_host ++ write_bool c.is_ready ++
  write_uleb c.users.length ++
  writeAll (fun p => write_i32 p.1 ++ UserInfo.write_binary p.2) c.users

/-- Modelled from the spec: the client-side decoder of `ClientRoomState`
(missing from this server-only repository); field for field the reverse of
`ClientRoomState::write_binary`, with the RoomId validated per §6. -/
def ClientRoomState.read_binary (l : Bytes) : DecRes ClientRoomState :=
  dbind (RoomId.read_binary l) fun id l =>
  dbind (RoomState.read_binary l) fun st l =>
  dbind (read_bool l) fun live l =>
  dbind (read_bool l) fun locked l =>
  dbind (read_bool l) fun cyc l =>
  dbind (read_bool l) fun ish l =>
  dbind (read_bool l) fun isr l =>
  dbind (read_uleb l) fun n l =>
  dbind (readCount (fun l =>
      dbind (read_i32 l) fun k l =>
      dbind (UserInfo.read_binary l) fun u l =>
      .ok ((k, u), l)) n l) fun us l =>
  .ok (⟨id, st, live, locked, cyc, ish, isr, us⟩, l)

/-- Source: `JoinRoomResponse`. -/
structure JoinRoomResponse where
  state : RoomState
  users : List UserInfo
  live : Bool
deriving DecidableEq

/-- Source: `JoinRoomResponse::write_binary`. -/
def JoinRoomResponse.write_binary (r : JoinRoomResponse) : Bytes :=
  r.state.write_binary ++ write_uleb r.users.length ++
  writeAll UserInfo.write_binary r.users ++ write_bool r.live

/-- Modelled from the spec: the client-side decoder of `JoinRoomResponse`
(missing from this server-only repository). -/
def JoinRoomResponse.read_binary (l : Bytes) : DecRes JoinRoomResponse :=
  dbind (RoomState.read_binary l) fun st l =>
  dbind (read_uleb l) fun n l =>
  dbind (readCount UserInfo.read_binary n l) fun us l =>
  dbind (read_bool l) fun live l =>
  .ok (⟨st, us, live⟩, l)

/-- The `Message` sub-protocol (`MessageType` tag 0–15 with the per-tag
fields serialised by `Message::write_binary`); constructor names follow the
C++ static factory functions. -/
inductive Message
  | chat (user : Nat) (content : Bytes)
  | create_room (user : Nat)
  | join_room (user : Nat) (content : Bytes)
  | leave_room (user : Nat) (content : Bytes)
  | new_host (user : Nat)
  | select_chart (user : Nat) (content : Bytes) (chart_id : Nat)
  | game_start (user : Nat)
  | ready (user : Nat)
  | cancel_ready (user : Nat)
  | cancel_game (user : Nat)
  | start_playing
  | played (user : Nat) (score : Nat) (accuracy : Nat) (full_combo : Bool)
  | game_end
  | abort_msg (user : Nat)
  | lock_room (flag : Bool)
  | cycle_room (flag : Bool)
deriving DecidableEq

/-- Source: `Message::write_binary`: `u8` tag in `MessageType` order, then the fields
the C++ switch writes for that tag. -/
def Message.write_binary : Message → Bytes
  | .chat u c => write_u8 0 ++ write_i32 u ++ write_string c
  | .create_room u => write_u8 1 ++ write_i32 u
  | .join_room u c => write_u8 2 ++ write_i32 u ++ write_string c
  | .leave_room u c => write_u8 3 ++ write_i32 u ++ write_string c
  | .new_host u => write_u8 4 ++ write_i32 u
  | .select_chart u c cid => write_u8 5 ++ write_i32 u ++ write_string c ++ write_i32 cid
  | .game_start u => write_u8 6 ++ write_i32 u
  | .ready u => write_u8 7 ++ write_i32 u
  | .cancel_ready u => write_u8 8 ++ write_i32 u
  | .cancel_game u => write_u8 9 ++ write_i32 u
  | .start_playing => write_u8 10
  | .played u s a fc => write_u8 11 ++ write_i32 u ++ write_i32 s ++ write_f32 a ++ write_bool fc
  | .game_end => write_u8 12
  | .abort_msg u => write_u8 13 ++ write_i32 u
  | .lock_room f => write_u8 14 ++ write_bool f
  | .cycle_room f => write_u8 15 ++ write_bool f

/-- Modelled from the spec: the client-side decoder of `Message` (missing
from this server-only repository); per §4.1 the tag byte selects the payload
schema written above, and an invalid discriminant is a protocol error. -/
def Message.read_binary (l : Bytes) : DecRes Message :=
  dbind (read_u8 l) fun tag l =>
  match tag with
  | 0 => dbind (read_i32 l) fun u l => dbind (read_string l) fun c l =>
         .ok (.chat u c, l)
  | 1 => dbind (read_i32 l) fun u l => .ok (.create_room u, l)
  | 2 => dbind (read_i32 l) fun u l => dbind (read_string l) fun c l =>
         .ok (.join_room u c, l)
  | 3 => dbind (read_i32 l) fun u l => dbind (read_string l) fun c l =>
         .ok (.leave_room u c, l)
  | 4 => dbind (read_i32 l) fun u l => .ok (.new_host u, l)
  | 5 => dbind (read_i32 l) fun u l => dbind (read_string l) fun c l =>
         dbind (read_i32 l) fun cid l => .ok (.select_chart u c cid, l)
  | 6 => dbind (read_i32 l) fun u l => .ok (.game_start u, l)
  | 7 => dbind (read_i32 l) fun u l => .ok (.ready u, l)
  | 8 => dbind (read_i32 l) fun u l => .ok (.cancel_ready u, l)
  | 9 => dbind (read_i32 l) fun u l => .ok (.cancel_game u, l)
  | 10 => .ok (.start_playing, l)
  | 11 => dbind (read_i32 l) fun u l => dbind (read_i32 l) fun s l =>
          dbind (read_f32 l) fun a l => dbind (read_bool l) fun fc l =>
          .ok (.played u s a fc, l)
  | 12 => .ok (.game_end, l)
  | 13 => dbind (read_i32 l) fun u l => .ok (.abort_msg u, l)
  | 14 => dbind (read_bool l) fun f l => .ok (.lock_room f, l)
  | 15 => dbind (read_bool l) fun f l => .ok (.cycle_room f, l)
  | _ => .error "invalid message type"

/-- Source: `ClientCommand` (`ClientCommandType` tags 0–15).  The C++ struct carries
a `type` tag plus the fields read for that tag; `ClientCommand::read_binary`
has no `default` case, so a first byte outside 0–15 falls through the switch
and yields a command that holds just the raw tag — constructor `unknown`. -/
inductive ClientCommand
  | ping
  | authenticate (token : Bytes)
  | chat (message : Bytes)
  | touches (frames : List TouchFrame)
  | judges (judges : List JudgeEvent)
  | create_room (room_id : Bytes)
  | join_room (room_id : Bytes) (monitor : Bool)
  | leave_room
  | lock_room (flag : Bool)
  | cycle_room (flag : Bool)
  | select_chart (chart_id : Nat)
  | request_start
  | ready
  | cancel_ready
  | played (chart_id : Nat)
  | abort
  | unknown (tag : Nat)
deriving DecidableEq

/-- Source: `ClientCommand::read_binary` (from `commands.h`): the tag byte selects
the payload; tags 16–255 match no `case` and are returned as-is with no
payload consumed. -/
def ClientCommand.read_binary (l : Bytes) : DecRes ClientCommand :=
  dbind (read_u8 l) fun tag l =>
  match tag with
  | 0 => .ok (.ping, l)
  | 1 => dbind (read_varchar 32 l) fun t l => .ok (.authenticate t, l)
  | 2 => dbind (read_varchar 200 l) fun m l => .ok (.chat m, l)
  | 3 => dbind (read_uleb l) fun n l =>
         dbind (readCount TouchFrame.read_binary n l) fun fs l =>
         .ok (.touches fs, l)
  | 4 => dbind (read_uleb l) fun n l =>
         dbind (readCount JudgeEvent.read_binary n l) fun js l =>
         .ok (.judges js, l)
  | 5 => dbind (RoomId.read_binary l) fun r l => .ok (.create_room r, l)
  | 6 => dbind (RoomId.read_binary l) fun r l =>
         dbind (read_bool l) fun m l => .ok (.join_room r m, l)
  | 7 => .ok (.leave_room, l)
  | 8 => dbind (read_bool l) fun f l => .ok (.lock_room f, l)
  | 9 => dbind (read_bool l) fun f l => .ok (.cycle_room f, l)
  | 10 => dbind (read_i32 l) fun c l => .ok (.select_chart c, l)
  | 11 => .ok (.request_start, l)
  | 12 => .ok (.ready, l)
  | 13 => .ok (.cancel_ready, l)
  | 14 => dbind (read_i32 l) fun c l => .ok (.played c, l)
  | 15 => .ok (.abort, l)
  | t => .ok (.unknown t, l)

/-- Modelled from the spec: the client-side encoder of `ClientCommand`
(missing from this server-only repository); §4.1 and §6 give each kind the
payload schema that `ClientCommand::read_binary` parses.  The undefined
`unknown` tag is emitted as its bare tag byte. -/
def ClientCommand.write_binary : ClientCommand → Bytes
  | .ping => write_u8 0
  | .authenticate t => write_u8 1 ++ write_string t
  | .chat m => write_u8 2 ++ write_string m
  | .touches fs => write_u8 3 ++ write_uleb fs.length ++
                   writeAll TouchFrame.write_binary fs
  | .judges js => write_u8 4 ++ write_uleb js.length ++
                  writeAll JudgeEvent.write_binary js
  | .create_room r => write_u8 5 ++ RoomId.write_binary r
  | .join_room r m => write_u8 6 ++ RoomId.write_binary r ++ write_bool m
  | .leave_room => write_u8 7
  | .lock_room f => write_u8 8 ++ write_bool f
  | .cycle_room f => write_u8 9 ++ write_bool f
  | .select_chart c => write_u8 10 ++ write_i32 c
  | .request_start => write_u8 11
  | .ready => write_u8 12
  | .cancel_ready => write_u8 13
  | .played c => write_u8 14 ++ write_i32 c
  | .abort => write_u8 15
  | .unknown t => write_u8 t

/-- Source: `ServerCommand` (`ServerCommandType` tags 0–19).  The eleven simple
acknowledgement kinds (Chat=2, CreateRoom=8, LeaveRoom=11, LockRoom=12,
CycleRoom=13, SelectChart=14, RequestStart=15, Ready=16, CancelReady=17,
Played=18, Abort=19) share one `ok`/`error` payload and are embedded as
`ack_ok`/`ack_err` carrying their tag. -/
inductive ServerCommand
  | pong
  | authenticate_ok (user : UserInfo) (room : Option ClientRoomState)
  | authenticate_err (emsg : Bytes)
  | ack_ok (tag : Nat)
  | ack_err (tag : Nat) (emsg : Bytes)
  | touches (player_id : Nat) (frames : List TouchFrame)
  | judges (player_id : Nat) (events : List JudgeEvent)
  | s_message (m : Message)
  | change_state (s : RoomState)
  | change_host (is_host : Bool)
  | join_room_ok (resp : JoinRoomResponse)
  | join_room_err (emsg : Bytes)
  | on_join_room (u : UserInfo)
deriving DecidableEq

/-- The `ServerCommandType` tags of the simple acknowledgement kinds. -/
def ackTags : List Nat := [2, 8, 11, 12, 13, 14, 15, 16, 17, 18, 19]

/-- Source: `ServerCommand::write_binary` (from `commands.h`). -/
def ServerCommand.write_binary : ServerCommand → Bytes
  | .pong => write_u8 0
  | .authenticate_ok u (some rs) =>
    write_u8 1 ++ write_bool true ++ u.write_binary ++ write_bool true ++
    rs.write_binary
  | .authenticate_ok u none =>
    write_u8 1 ++ write_bool true ++ u.write_binary ++ write_bool false
  | .authenticate_err e => write_u8 1 ++ write_bool false ++ write_string e
  | .ack_ok t => write_u8 t ++ write_bool true
  | .ack_err t e => write_u8 t ++ write_bool false ++ write_string e
  | .touches p fs => write_u8 3 ++ write_i32 p ++ write_uleb fs.length ++
                     writeAll TouchFrame.write_binary fs
  | .judges p js => write_u8 4 ++ write_i32 p ++ write_uleb js.length ++
                    writeAll JudgeEvent.write_binary js
  | .s_message m => write_u8 5 ++ m.write_binary
  | .change_state s => write_u8 6 ++ s.write_binary
  | .change_host h => write_u8 7 ++ write_bool h
  | .join_room_ok r => write_u8 9 ++ write_bool true ++ r.write_binary
  | .join_room_err e => write_u8 9 ++ write_bool false ++ write_string e
  | .on_join_room u => write_u8 10 ++ u.write_binary

/-- Modelled from the spec: the client-side decoder of `ServerCommand`
(missing from this server-only repository); per §4.1/§6 each kind parses the
payload that `ServerCommand::write_binary` emits, and an invalid discriminant
is a protocol error. -/
def ServerCommand.read_binary (l : Bytes) : DecRes ServerCommand :=
  dbind (read_u8 l) fun tag l =>
  match tag with
  | 0 => .ok (.pong, l)
  | 1 => dbind (read_bool l) fun ok l =>
         if ok then
           dbind (UserInfo.read_binary l) fun u l =>
           dbind (read_bool l) fun present l =>
           if present then
             dbind (ClientRoomState.read_binary l) fun rs l =>
             .ok (.authenticate_ok u (some rs), l)
           else .ok (.authenticate_ok u none, l)
         else dbind (read_string l) fun e l => .ok (.authenticate_err e, l)
  | 3 => dbind (read_i32 l) fun p l =>
         dbind (read_uleb l) fun n l =>
         dbind (readCount TouchFrame.read_binary n l) fun fs l =>
         .ok (.touches p fs, l)
  | 4 => dbind (read_i32 l) fun p l =>
         dbind (read_uleb l) fun n l =>
         dbind (readCount JudgeEvent.read_binary n l) fun js l =>
         .ok (.judges p js, l)
  | 5 => dbind (Message.read_binary l) fun m l => .ok (.s_message m, l)
  | 6 => dbind (RoomState.read_binary l) fun s l => .ok (.change_state s, l)
  | 7 => dbind (read_bool l) fun h l => .ok (.change_host h, l)
  | 9 => dbind (read_bool l) fun ok l =>
         if ok then
           dbind (JoinRoomResponse.read_binary l) fun r l =>
           .ok (.join_room_ok r, l)
         else dbind (read_string l) fun e l => .ok (.join_room_err e, l)
  | 10 => dbind (UserInfo.read_binary l) fun u l => .ok (.on_join_room u, l)
  | t => if ackTags.contains t then
           dbind (read_bool l) fun ok l =>
           if ok then .ok (.ack_ok t, l)
           else dbind (read_string l) fun e l => .ok (.ack_err t e, l)
         else .error "invalid server command type"

/-! ## Well-typed payloads

A payload is well-typed when every field fits its wire type: bytes < 2^8,
`u16` < 2^16, `i32`/`u32`/`f32` bit patterns < 2^32, lengths < 2^64 (the
C++ `uint64_t` of the ULEB prefix), strings are byte strings under their
`varchar` cap, and RoomIds pass `RoomId::validate`. -/

/-- A well-typed string: a list of bytes whose ULEB length fits `uint64_t`. -/
def strwf (s : Bytes) : Bool := decide (s.length < 2 ^ 64) && s.all (· < 256)

/-- Well-typed `CompactPos`: two `u16` patterns. -/
def CompactPos.wf (p : CompactPos) : Bool :=
  decide (p.x_bits < 2 ^ 16) && decide (p.y_bits < 2 ^ 16)

/-- Well-typed `TouchFrame`. -/
def TouchFrame.wf (f : TouchFrame) : Bool :=
  decide (f.time < 2 ^ 32) && decide (f.points.length < 2 ^ 64) &&
  f.points.all fun p => decide (p.1 < 2 ^ 8) && p.2.wf

/-- Well-typed `JudgeEvent`. -/
def JudgeEvent.wf (e : JudgeEvent) : Bool :=
  decide (e.time < 2 ^ 32) && decide (e.line_id < 2 ^ 32) &&
  decide (e.note_id < 2 ^ 32) && decide (e.judgement < 2 ^ 8)

/-- Well-typed `UserInfo`. -/
def UserInfo.wf (u : UserInfo) : Bool := decide (u.id < 2 ^ 32) && strwf u.name

/-- Well-typed `RoomState`. -/
def RoomState.wf : RoomState → Bool
  | .select_chart (some c) => decide (c < 2 ^ 32)
  | _ => true

/-- Well-typed `ClientRoomState`. -/
def ClientRoomState.wf (c : ClientRoomState) : Bool :=
  RoomId.validate c.id && c.state.wf && decide (c.users.length < 2 ^ 64) &&
  c.users.all fun p => decide (p.1 < 2 ^ 32) && p.2.wf

/-- Well-typed `JoinRoomResponse`. -/
def JoinRoomResponse.wf (r : JoinRoomResponse) : Bool :=
  r.state.wf && decide (r.users.length < 2 ^ 64) && r.users.all UserInfo.wf

/-- Well-typed `Message`. -/
def Message.wf : Message → Bool
  | .chat u c => decide (u < 2 ^ 32) && strwf c
  | .create_room u => decide (u < 2 ^ 32)
  | .join_room u c => decide (u < 2 ^ 32) && strwf c
  | .leave_room u c => decide (u < 2 ^ 32) && strwf c
  | .new_host u => decide (u < 2 ^ 32)
  | .select_chart u c cid =>
    decide (u < 2 ^ 32) && strwf c && decide (cid < 2 ^ 32)
  | .game_start u => decide (u < 2 ^ 32)
  | .ready u => decide (u < 2 ^ 32)
  | .cancel_ready u => decide (u < 2 ^ 32)
  | .cancel_game u => decide (u < 2 ^ 32)
  | .start_playing => true
  | .played u s a _fc =>
    decide (u < 2 ^ 32) && decide (s < 2 ^ 32) && decide (a < 2 ^ 32)
  | .game_end => true
  | .abort_msg u => decide (u < 2 ^ 32)
  | .lock_room _ => true
  | .cycle_room _ => true

/-- Well-typed `ClientCommand` payload: only the sixteen defined variants,
with strings under their `varchar` caps and RoomIds valid. -/
def ClientCommand.wf : ClientCommand → Bool
  | .ping => true
  | .authenticate t => decide (t.length ≤ 32) && strwf t
  | .chat m => decide (m.length ≤ 200) && strwf m
  | .touches fs => decide (fs.length < 2 ^ 64) && fs.all TouchFrame.wf
  | .judges js => decide (js.length < 2 ^ 64) && js.all JudgeEvent.wf
  | .create_room r => RoomId.validate r
  | .join_room r _ => RoomId.validate r
  | .leave_room => true
  | .lock_room _ => true
  | .cycle_room _ => true
  | .select_chart c => decide (c < 2 ^ 32)
  | .request_start => true
  | .ready => true
  | .cancel_ready => true
  | .played c => decide (c < 2 ^ 32)
  | .abort => true
  | .unknown _ => false

/-- Well-typed `ServerCommand` payload. -/
def ServerCommand.wf : ServerCommand → Bool
  | .pong => true
  | .authenticate_ok u (some rs) => u.wf && rs.wf
  | .authenticate_ok u none => u.wf
  | .authenticate_err e => strwf e
  | .ack_ok t => ackTags.contains t
  | .ack_err t e => ackTags.contains t && strwf e
  | .touches p fs =>
    decide (p < 2 ^ 32) && decide (fs.length < 2 ^ 64) &&
    fs.all TouchFrame.wf
  | .judges p js =>
    decide (p < 2 ^ 32) && decide (js.length < 2 ^ 64) &&
    js.all JudgeEvent.wf
  | .s_message m => m.wf
  | .change_state s => s.wf
  | .change_host _ => true
  | .join_room_ok r => r.wf
  | .join_room_err e => strwf e
  | .on_join_room u => u.wf

/-! ## The room model (`include/room.h`, `src/room.cpp`)

A `std::weak_ptr<User>` is an `Option User`: `none` is an expired reference
(`expired()` true / `lock()` null).  `std::set<int32_t>` and the
`unordered_map<int32_t, Record>` are lists queried with `contains`
(the C++ only uses `count(id)`).  Outbound traffic is recorded as an event
list: `Ev.broadcast` for `Room::broadcast`/`Room::send`, `Ev.direct` for a
`usr->try_send` to one user.  The random new host of `on_user_leave` is
modelled by a `pick` parameter (the value drawn from
`uniform_int_distribution(0, size-1)` is `pick % size`). -/

/-- Source: `ROOM_MAX_USERS` from `room.h`. -/
def ROOM_MAX_USERS : Nat := 8

/-- A `User` as far as the room logic reads it: id, display name and the
atomic `monitor` flag. -/
structure User where
  id : Nat
  name : Bytes
  monitor : Bool
deriving DecidableEq

instance : Inhabited User := ⟨⟨0, [], false⟩⟩

/-- Source: `Chart` (id and display name). -/
structure Chart where
  id : Nat
  name : Bytes
deriving DecidableEq

/-- Source: `InternalRoomStateType`. -/
inductive InternalRoomStateType
  | SelectChart
  | WaitForReady
  | Playing
deriving DecidableEq

/-- Source: `Record` (`room.h`): float fields carry their `f32` bit patterns. -/
structure Record where
  id : Nat
  player : Nat
  score : Nat
  perfect : Nat
  good : Nat
  bad : Nat
  miss : Nat
  max_combo : Nat
  accuracy : Nat
  full_combo : Bool
  std_dev : Nat
  std_score : Nat
deriving DecidableEq

/-- Source: `InternalRoomState`. -/
structure InternalRoomState where
  type : InternalRoomStateType
  started : List Nat
  results : List (Nat × Record)
  aborted : List Nat
deriving DecidableEq

/-- Source: `InternalRoomState::select_chart()`. -/
def InternalRoomState.select_chart : InternalRoomState :=
  ⟨.SelectChart, [], [], []⟩

/-- Source: `InternalRoomState::wait_for_ready(s)`. -/
def InternalRoomState.wait_for_ready (s : List Nat) : InternalRoomState :=
  ⟨.WaitForReady, s, [], []⟩

/-- Source: `InternalRoomState::playing()`. -/
def InternalRoomState.playing : InternalRoomState :=
  ⟨.Playing, [], [], []⟩

/-- Source: `InternalRoomState::to_client`. -/
def InternalRoomState.to_client (st : InternalRoomState)
    (chart_id : Option Nat) : RoomState :=
  match st.type with
  | .SelectChart => .select_chart chart_id
  | .WaitForReady => .waiting_for_ready
  | .Playing => .playing

/-- A `Room` snapshot: `host` is the result of `host.lock()` (`none` when
the weak reference is expired), `users_`/`monitors_` are the weak-pointer
lists. -/
structure Room where
  id : Bytes
  host : Option User
  state : InternalRoomState
  live : Bool
  locked : Bool
  cycle : Bool
  users_ : List (Option User)
  monitors_ : List (Option User)
  chart : Option Chart
deriving DecidableEq

/-- Source: `Room::users()`: lock every weak reference, keeping the live ones. -/
def Room.users (r : Room) : List User := r.users_.filterMap (fun w => w)

/-- Source: `Room::monitors()`. -/
def Room.monitors (r : Room) : List User := r.monitors_.filterMap (fun w => w)

/-- Source: `Room::check_host`: the locked host exists and has the id of the user. -/
def Room.check_host (r : Room) (u : User) : Bool :=
  match r.host with
  | some h => h.id == u.id
  | none => false

/-- Source: `Room::client_room_state()`. -/
def Room.client_room_state (r : Room) : RoomState :=
  r.state.to_client (r.chart.map Chart.id)

/-- One delivery performed by the room: a `broadcast` to every member and
monitor, or a `try_send` directly to the user with the given id. -/
inductive Ev
  | broadcast (cmd : ServerCommand)
  | direct (uid : Nat) (cmd : ServerCommand)
deriving DecidableEq

/-- Source: `Room::add_user(user, monitor)`: compacts the expired references out of
the target list, rejects a member join at `ROOM_MAX_USERS` live members, and
appends.  Returns the C++ `bool` and the updated room. -/
def Room.add_user (r : Room) (user : Option User) (is_monitor : Bool) :
    Bool × Room :=
  if is_monitor then
    let ms := r.monitors_.filter fun w => !w.isNone
    (true, { r with monitors_ := ms ++ [user] })
  else
    let us := r.users_.filter fun w => !w.isNone
    if ROOM_MAX_USERS ≤ us.length then (false, { r with users_ := us })
    else (true, { r with users_ := us ++ [user] })

/-- Source: `Room::check_all_ready()`: returns the updated room, the deliveries in
order, and the `game_time` stores of `reset_game_time` as
`(user id, f32 bit pattern)` pairs. -/
def Room.check_all_ready (r : Room) : Room × List Ev × List (Nat × Nat) :=
  match r.state.type with
  | .WaitForReady =>
    let u := r.users
    let m := r.monitors
    let all_ready := (u.all fun usr => r.state.started.contains usr.id) &&
                     (m.all fun usr => r.state.started.contains usr.id)
    if all_ready then
      let writes := u.map fun usr => (usr.id, NEG_INF_F32_BITS)
      let r2 := { r with state := InternalRoomState.playing }
      (r2, [.broadcast (.s_message .start_playing),
            .broadcast (.change_state r2.client_room_state)], writes)
    else (r, [], [])
  | .Playing =>
    let u := r.users
    let all_done := u.all fun usr =>
      (r.state.results.map Prod.fst).contains usr.id ||
      r.state.aborted.contains usr.id
    if all_done then
      let r2 := { r with state := InternalRoomState.select_chart }
      if r2.cycle then
        let usr_list := r2.users
        if usr_list.isEmpty then
          (r2, [.broadcast (.s_message .game_end),
                .broadcast (.change_state r2.client_room_state)], [])
        else
          let index :=
            match r.host with
            | some h =>
              match usr_list.findIdx? (fun usr => usr.id == h.id) with
              | some i => (i + 1) % usr_list.length
              | none => 0
            | none => 0
          let new_host := usr_list.getD index default
          let r3 := { r2 with host := some new_host }
          (r3, [.broadcast (.s_message .game_end),
                .broadcast (.s_message (.new_host new_host.id))] ++
               (match r.host with
                | some old => [.direct old.id (.change_host false)]
                | none => []) ++
               [.direct new_host.id (.change_host true),
                .broadcast (.change_state r3.client_room_state)], [])
      else
        (r2, [.broadcast (.s_message .game_end),
              .broadcast (.change_state r2.client_room_state)], [])
    else (r, [], [])
  | .SelectChart => (r, [], [])

/-- Source: `Room::on_user_leave(user)`: broadcasts the leave message, removes the
leaver (and expired references) from the member or monitor list, hands the
host role on or drops the room, and re-runs `check_all_ready`.  Returns the
updated room, the deliveries, the `game_time` stores, and the C++ `bool`
(`true` = the room should be dropped). -/
def Room.on_user_leave (r : Room) (u : User) (pick : Nat) :
    Room × List Ev × List (Nat × Nat) × Bool :=
  let ev0 : Ev := .broadcast (.s_message (.leave_room u.id u.name))
  let keep : Option User → Bool := fun w =>
    match w with
    | none => false
    | some s => s.id != u.id
  let r1 :=
    if u.monitor then { r with monitors_ := r.monitors_.filter keep }
    else { r with users_ := r.users_.filter keep }
  if r1.check_host u then
    let usr_list := r1.users
    if usr_list.isEmpty then (r1, [ev0], [], true)
    else
      let new_host := usr_list.getD (pick % usr_list.length) default
      let r2 := { r1 with host := some new_host }
      let p := r2.check_all_ready
      (p.1, [ev0, .broadcast (.s_message (.new_host new_host.id)),
             .direct new_host.id (.change_host true)] ++ p.2.1, p.2.2, false)
  else
    let p := r1.check_all_ready
    (p.1, ev0 :: p.2.1, p.2.2, false)

/-! ## Helper lemmas -/

theorem lor_shl_eq_add {x : Nat} (y k : Nat) (h : x < 2 ^ k) :
    x ||| (y <<< k) = x + (y <<< k) := by
  have hkpos : 0 < 2 ^ k := Nat.pos_pow_of_pos k (by omega)
  apply Nat.eq_of_testBit_eq
  intro i
  rw [Nat.testBit_lor, Nat.testBit_shiftLeft, Nat.shiftLeft_eq]
  rcases Nat.lt_or_ge i k with hik | hik
  · have h1 : ¬ (k ≤ i) := by omega
    have h2 : (x + y * 2 ^ k) % 2 ^ k = x := by
      rw [Nat.add_mul_mod_self_right, Nat.mod_eq_of_lt h]
    have h3 := Nat.testBit_mod_two_pow (x + y * 2 ^ k) k i
    rw [h2] at h3
    simp [hik] at h3
    have h1d : decide (k ≤ i) = false := by simp [h1]
    rw [h1d]
    simp [h3]
  · have hx : x.testBit i = false :=
      Nat.testBit_lt_two_pow
        (lt_of_lt_of_le h (Nat.pow_le_pow_right (by omega) hik))
    have h4 : (x + y * 2 ^ k) / 2 ^ k = y := by
      rw [Nat.add_mul_div_right _ _ hkpos, Nat.div_eq_of_lt h, Nat.zero_add]
    have h5 : (x + y * 2 ^ k).testBit i = y.testBit (i - k) := by
      rw [Nat.testBit_to_div_mod, Nat.testBit_to_div_mod]
      have hsplit : 2 ^ i = 2 ^ k * 2 ^ (i - k) := by
        rw [← Nat.pow_add]
        congr 1
        omega
      rw [hsplit, ← Nat.div_div_eq_div_mul, h4]
    have h1d : decide (k ≤ i) = true := by simp [hik]
    rw [h1d]
    simp [hx, h5]

theorem and_127_eq_mod (n : Nat) : n &&& 127 = n % 128 := by
  have := Nat.and_pow_two_sub_one_eq_mod n 7
  norm_num at this
  exact this

theorem lor_128_eq_add {x : Nat} (h : x < 128) : x ||| 128 = x + 128 := by
  have h1 : (1 : Nat) <<< 7 = 128 := by decide
  have := lor_shl_eq_add (x := x) 1 7 (by omega)
  rw [h1] at this
  exact this

theorem and_128_eq_zero {x : Nat} (h : x < 128) : x &&& 128 = 0 := by
  have h1 : x &&& 2 ^ 7 = (x.testBit 7).toNat * 2 ^ 7 := Nat.and_two_pow x 7
  have h2 : x.testBit 7 = false := Nat.testBit_lt_two_pow (by norm_num; omega)
  rw [h2] at h1
  norm_num at h1
  exact h1

theorem add_128_and_128 {x : Nat} (h : x < 128) : (x + 128) &&& 128 = 128 := by
  have h1 : (x + 128) &&& 2 ^ 7 = ((x + 128).testBit 7).toNat * 2 ^ 7 :=
    Nat.and_two_pow (x + 128) 7
  have h2 : (x + 128).testBit 7 = true := by
    rw [Nat.testBit_to_div_mod]
    have : (x + 128) / 2 ^ 7 = 1 := by norm_num; omega
    rw [this]
    decide
  rw [h2] at h1
  norm_num at h1
  exact h1

/-! ## Codec round-trip lemmas -/

theorem read_write_uleb (v : Nat) (rest : Bytes) :
    read_uleb (write_uleb v ++ rest) = .ok (v, rest) := by
  induction v using Nat.strong_induction_on with
  | _ v ih =>
    rw [write_uleb]
    by_cases h : v < 128
    · simp only [h, dif_pos, List.cons_append, List.nil_append]
      rw [read_uleb]
      rw [and_128_eq_zero h, and_127_eq_mod]
      simp [Nat.mod_eq_of_lt h]
    · simp only [h, dif_neg, not_false_iff, List.cons_append]
      rw [read_uleb]
      have hb : (v &&& 127) ||| 128 = v % 128 + 128 := by
        rw [and_127_eq_mod]
        exact lor_128_eq_add (Nat.mod_lt v (by omega))
      rw [hb]
      have hband : (v % 128 + 128) &&& 128 = 128 :=
        add_128_and_128 (Nat.mod_lt v (by omega))
      simp only [hband]
      have hrec : read_uleb (write_uleb (v >>> 7) ++ rest) =
          .ok (v >>> 7, rest) := by
        apply ih
        simp only [Nat.shiftRight_eq_div_pow]
        omega
      have hlow : (v % 128 + 128) &&& 127 = v % 128 := by
        rw [and_127_eq_mod, Nat.add_mod_right]
        omega
      rw [hlow, hrec, if_neg (show ¬((128 : Nat) = 0) by omega)]
      show Except.ok (v % 128 ||| (v >>> 7) <<< 7, rest) = Except.ok (v, rest)
      have hx : v % 128 < 2 ^ 7 := by norm_num; omega
      rw [lor_shl_eq_add (v >>> 7) 7 hx]
      rw [Nat.shiftLeft_eq, Nat.shiftRight_eq_div_pow]
      congr 2
      norm_num
      omega

theorem take_append (l rest : Bytes) : take l.length (l ++ rest) = .ok (l, rest) := by
  simp [take, List.take_left, List.drop_left]

theorem read_write_string (s : Bytes) (rest : Bytes) :
    read_string (write_string s ++ rest) = .ok (s, rest) := by
  rw [read_string, write_string, List.append_assoc, read_write_uleb]
  simp [dbind, take_append]

theorem read_write_varchar {cap : Nat} (s : Bytes) (rest : Bytes)
    (h : s.length ≤ cap) :
    read_varchar cap (write_string s ++ rest) = .ok (s, rest) := by
  rw [read_varchar, write_string, List.append_assoc, read_write_uleb]
  simp only [dbind]
  rw [if_neg (by omega)]
  exact take_append s rest

theorem read_write_bool (b : Bool) (rest : Bytes) :
    read_bool (write_bool b ++ rest) = .ok (b, rest) := by
  cases b <;> rfl

theorem read_write_u8 {v : Nat} (rest : Bytes) (h : v < 2 ^ 8) :
    read_u8 (write_u8 v ++ rest) = .ok (v, rest) := by
  simp [read_u8, write_u8, read_byte, Nat.mod_eq_of_lt (show v < 256 by omega)]

theorem read_write_u16 {v : Nat} (rest : Bytes) (h : v < 2 ^ 16) :
    read_u16 (write_u16 v ++ rest) = .ok (v, rest) := by
  simp only [write_u16, read_u16, List.cons_append, List.nil_append]
  congr 1
  congr 1
  omega

theorem read_write_u32 {v : Nat} (rest : Bytes) (h : v < 2 ^ 32) :
    read_u32 (write_u32 v ++ rest) = .ok (v, rest) := by
  simp only [write_u32, read_u32, List.cons_append, List.nil_append]
  congr 1
  congr 1
  omega

theorem read_write_u64 {v : Nat} (rest : Bytes) (h : v < 2 ^ 64) :
    read_u64 (write_u64 v ++ rest) = .ok (v, rest) := by
  simp only [write_u64, read_u64, List.cons_append, List.nil_append]
  congr 1
  congr 1
  omega

theorem readCount_writeAll {α : Type} (rd : Bytes → DecRes α) (wr : α → Bytes)
    (P : α → Bool)
    (hx : ∀ (x : α) (r : Bytes), P x = true → rd (wr x ++ r) = .ok (x, r)) :
    ∀ (xs : List α) (rest : Bytes), (∀ x ∈ xs, P x = true) →
      readCount rd xs.length (writeAll wr xs ++ rest) = .ok (xs, rest) := by
  intro xs
  induction xs with
  | nil => intro rest _; simp [readCount, writeAll]
  | cons x xs ih =>
    intro rest hall
    simp only [writeAll, List.length_cons, readCount, List.append_assoc]
    rw [hx x _ (hall x (by simp))]
    simp only [dbind]
    rw [ih rest (fun y hy => hall y (by simp [hy]))]

theorem read_write_compact_pos (p : CompactPos) (rest : Bytes)
    (h : p.wf = true) :
    CompactPos.read_binary (p.write_binary ++ rest) = .ok (p, rest) := by
  simp only [CompactPos.wf, Bool.and_eq_true, decide_eq_true_eq] at h
  obtain ⟨hx, hy⟩ := h
  simp only [CompactPos.write_binary, CompactPos.read_binary,
    List.append_assoc]
  rw [read_write_u16 _ hx]
  simp only [dbind]
  rw [read_write_u16 _ hy]

theorem read_write_touch_point (p : Nat × CompactPos) (rest : Bytes)
    (h : (decide (p.1 < 2 ^ 8) && p.2.wf) = true) :
    (dbind (read_i8 (write_i8 p.1 ++ CompactPos.write_binary p.2 ++ rest))
      fun id l =>
        dbind (CompactPos.read_binary l) fun pos l => .ok ((id, pos), l)) =
    .ok (p, rest) := by
  simp only [Bool.and_eq_true, decide_eq_true_eq] at h
  obtain ⟨h1, h2⟩ := h
  simp only [List.append_assoc, read_i8, write_i8]
  rw [show read_byte = read_u8 from rfl, read_write_u8 _ h1]
  simp only [dbind]
  rw [read_write_compact_pos _ _ h2]

theorem read_write_touch_frame (f : TouchFrame) (rest : Bytes)
    (h : f.wf = true) :
    TouchFrame.read_binary (f.write_binary ++ rest) = .ok (f, rest) := by
  simp only [TouchFrame.wf, Bool.and_eq_true, decide_eq_true_eq] at h
  obtain ⟨⟨htime, _hlen⟩, hpts⟩ := h
  simp only [TouchFrame.write_binary, TouchFrame.read_binary,
    List.append_assoc, read_f32, write_f32]
  rw [read_write_u32 _ htime]
  simp only [dbind]
  rw [read_write_uleb]
  simp only [dbind]
  rw [readCount_writeAll _ _ (fun p => decide (p.1 < 2 ^ 8) && p.2.wf)
    (fun x r hx => read_write_touch_point x r hx)
    f.points rest (by
      intro x hxmem
      rw [List.all_eq_true] at hpts
      exact hpts x hxmem)]

theorem read_write_judge_event (e : JudgeEvent) (rest : Bytes)
    (h : e.wf = true) :
    JudgeEvent.read_binary (e.write_binary ++ rest) = .ok (e, rest) := by
  simp only [JudgeEvent.wf, Bool.and_eq_true, decide_eq_true_eq] at h
  obtain ⟨⟨⟨h1, h2⟩, h3⟩, h4⟩ := h
  simp only [JudgeEvent.write_binary, JudgeEvent.read_binary,
    List.append_assoc, read_f32, write_f32]
  rw [read_write_u32 _ h1]
  simp only [dbind]
  rw [read_write_u32 _ h2]
  simp only [dbind]
  rw [read_write_u32 _ h3]
  simp only [dbind]
  rw [read_write_u8 _ h4]

theorem read_write_user_info (u : UserInfo) (rest : Bytes)
    (h : u.wf = true) :
    UserInfo.read_binary (u.write_binary ++ rest) = .ok (u, rest) := by
  simp only [UserInfo.wf, strwf, Bool.and_eq_true, decide_eq_true_eq] at h
  obtain ⟨hid, _⟩ := h
  simp only [UserInfo.write_binary, UserInfo.read_binary, List.append_assoc,
    read_i32, write_i32]
  rw [read_write_u32 _ hid]
  simp only [dbind]
  rw [read_write_string]
  simp only [dbind]
  rw [read_write_bool]

theorem read_write_room_state (s : RoomState) (rest : Bytes)
    (h : s.wf = true) :
    RoomState.read_binary (s.write_binary ++ rest) = .ok (s, rest) := by
  cases s with
  | select_chart oc =>
    cases oc with
    | some c =>
      simp only [RoomState.wf, decide_eq_true_eq] at h
      simp only [RoomState.write_binary, RoomState.read_binary,
        List.append_assoc, read_i32, write_i32]
      rw [read_write_u8 _ (by norm_num)]
      simp only [dbind]
      norm_num
      rw [read_write_bool]
      simp only [dbind, if_pos]
      rw [read_write_u32 _ h]
    | none =>
      simp only [RoomState.write_binary, RoomState.read_binary,
        List.append_assoc]
      rw [read_write_u8 _ (by norm_num)]
      simp only [dbind]
      norm_num
      rw [read_write_bool]
      simp only [dbind]
      norm_num
  | waiting_for_ready =>
    simp only [RoomState.write_binary, RoomState.read_binary,
      List.append_assoc]
    rw [read_write_u8 _ (by norm_num)]
    simp only [dbind]
    norm_num
  | playing =>
    simp only [RoomState.write_binary, RoomState.read_binary,
      List.append_assoc]
    rw [read_write_u8 _ (by norm_num)]
    simp only [dbind]
    norm_num

theorem read_write_message (m : Message) (rest : Bytes) (h : m.wf = true) :
    Message.read_binary (m.write_binary ++ rest) = .ok (m, rest) := by
  cases m with
  | chat u c =>
    simp only [Message.wf, Bool.and_eq_true, decide_eq_true_eq] at h
    obtain ⟨hu, _⟩ := h
    simp only [Message.write_binary, Message.read_binary, List.append_assoc,
      read_i32, write_i32]
    rw [read_write_u8 _ (by norm_num)]
    simp only [dbind]
    rw [read_write_u32 _ hu]
    simp only [dbind]
    rw [read_write_string]
  | create_room u =>
    simp only [Message.wf, decide_eq_true_eq] at h
    simp only [Message.write_binary, Message.read_binary, List.append_assoc,
      read_i32, write_i32]
    rw [read_write_u8 _ (by norm_num)]
    simp only [dbind]
    rw [read_write_u32 _ h]
  | join_room u c =>
    simp only [Message.wf, Bool.and_eq_true, decide_eq_true_eq] at h
    obtain ⟨hu, _⟩ := h
    simp only [Message.write_binary, Message.read_binary, List.append_assoc,
      read_i32, write_i32]
    rw [read_write_u8 _ (by norm_num)]
    simp only [dbind]
    rw [read_write_u32 _ hu]
    simp only [dbind]
    rw [read_write_string]
  | leave_room u c =>
    simp only [Message.wf, Bool.and_eq_true, decide_eq_true_eq] at h
    obtain ⟨hu, _⟩ := h
    simp only [Message.write_binary, Message.read_binary, List.append_assoc,
      read_i32, write_i32]
    rw [read_write_u8 _ (by norm_num)]
    simp only [dbind]
    rw [read_write_u32 _ hu]
    simp only [dbind]
    rw [read_write_string]
  | new_host u =>
    simp only [Message.wf, decide_eq_true_eq] at h
    simp only [Message.write_binary, Message.read_binary, List.append_assoc,
      read_i32, write_i32]
    rw [read_write_u8 _ (by norm_num)]
    simp only [dbind]
    rw [read_write_u32 _ h]
  | select_chart u c cid =>
    simp only [Message.wf, Bool.and_eq_true, decide_eq_true_eq] at h
    obtain ⟨⟨hu, _⟩, hcid⟩ := h
    simp only [Message.write_binary, Message.read_binary, List.append_assoc,
      read_i32, write_i32]
    rw [read_write_u8 _ (by norm_num)]
    simp only [dbind]
    rw [read_write_u32 _ hu]
    simp only [dbind]
    rw [read_write_string]
    simp only [dbind]
    rw [read_write_u32 _ hcid]
  | game_start u =>
    simp only [Message.wf, decide_eq_true_eq] at h
    simp only [Message.write_binary, Message.read_binary, List.append_assoc,
      read_i32, write_i32]
    rw [read_write_u8 _ (by norm_num)]
    simp only [dbind]
    rw [read_write_u32 _ h]
  | ready u =>
    simp only [Message.wf, decide_eq_true_eq] at h
    simp only [Message.write_binary, Message.read_binary, List.append_assoc,
      read_i32, write_i32]
    rw [read_write_u8 _ (by norm_num)]
    simp only [dbind]
    rw [read_write_u32 _ h]
  | cancel_ready u =>
    simp only [Message.wf, decide_eq_true_eq] at h
    simp only [Message.write_binary, Message.read_binary, List.append_assoc,
      read_i32, write_i32]
    rw [read_write_u8 _ (by norm_num)]
    simp only [dbind]
    rw [read_write_u32 _ h]
  | cancel_game u =>
    simp only [Message.wf, decide_eq_true_eq] at h
    simp only [Message.write_binary, Message.read_binary, List.append_assoc,
      read_i32, write_i32]
    rw [read_write_u8 _ (by norm_num)]
    simp only [dbind]
    rw [read_write_u32 _ h]
  | start_playing =>
    simp only [Message.write_binary, Message.read_binary, List.append_assoc]
    rw [read_write_u8 _ (by norm_num)]
    rfl
  | played u s a fc =>
    simp only [Message.wf, Bool.and_eq_true, decide_eq_true_eq] at h
    obtain ⟨⟨hu, hs⟩, ha⟩ := h
    simp only [Message.write_binary, Message.read_binary, List.append_assoc,
      read_i32, write_i32, read_f32, write_f32]
    rw [read_write_u8 _ (by norm_num)]
    simp only [dbind]
    rw [read_write_u32 _ hu]
    simp only [dbind]
    rw [read_write_u32 _ hs]
    simp only [dbind]
    rw [read_write_u32 _ ha]
    simp only [dbind]
    rw [read_write_bool]
  | game_end =>
    simp only [Message.write_binary, Message.read_binary, List.append_assoc]
    rw [read_write_u8 _ (by norm_num)]
    rfl
  | abort_msg u =>
    simp only [Message.wf, decide_eq_true_eq] at h
    simp only [Message.write_binary, Message.read_binary, List.append_assoc,
      read_i32, write_i32]
    rw [read_write_u8 _ (by norm_num)]
    simp only [dbind]
    rw [read_write_u32 _ h]
  | lock_room f =>
    simp only [Message.write_binary, Message.read_binary, List.append_assoc]
    rw [read_write_u8 _ (by norm_num)]
    simp only [dbind]
    rw [read_write_bool]
  | cycle_room f =>
    simp only [Message.write_binary, Message.read_binary, List.append_assoc]
    rw [read_write_u8 _ (by norm_num)]
    simp only [dbind]
    rw [read_write_bool]

theorem read_write_room_id (s : Bytes) (rest : Bytes)
    (h : RoomId.validate s = true) :
    RoomId.read_binary (RoomId.write_binary s ++ rest) = .ok (s, rest) := by
  have hlen : s.length ≤ 20 := by
    by_contra hc
    simp [RoomId.validate, show 20 < s.length by omega] at h
  simp only [RoomId.read_binary, RoomId.write_binary]
  rw [read_write_varchar s rest hlen]
  simp [dbind, h]

theorem read_write_user_pair (p : Nat × UserInfo) (rest : Bytes)
    (h : (decide (p.1 < 2 ^ 32) && p.2.wf) = true) :
    (dbind (read_i32 (write_i32 p.1 ++ UserInfo.write_binary p.2 ++ rest))
      fun k l =>
        dbind (UserInfo.read_binary l) fun u l => .ok ((k, u), l)) =
    .ok (p, rest) := by
  simp only [Bool.and_eq_true, decide_eq_true_eq] at h
  obtain ⟨h1, h2⟩ := h
  simp only [List.append_assoc, read_i32, write_i32]
  rw [read_write_u32 _ h1]
  simp only [dbind]
  rw [read_write_user_info _ _ h2]

theorem read_write_client_room_state (c : ClientRoomState) (rest : Bytes)
    (h : c.wf = true) :
    ClientRoomState.read_binary (c.write_binary ++ rest) = .ok (c, rest) := by
  simp only [ClientRoomState.wf, Bool.and_eq_true, decide_eq_true_eq] at h
  obtain ⟨⟨⟨hid, hst⟩, _hlen⟩, husers⟩ := h
  simp only [ClientRoomState.write_binary, ClientRoomState.read_binary,
    List.append_assoc]
  rw [read_write_room_id _ _ hid]
  simp only [dbind]
  rw [read_write_room_state _ _ hst]
  simp only [dbind]
  rw [read_write_bool]
  simp only [dbind]
  rw [read_write_bool]
  simp only [dbind]
  rw [read_write_bool]
  simp only [dbind]
  rw [read_write_bool]
  simp only [dbind]
  rw [read_write_bool]
  simp only [dbind]
  rw [read_write_uleb]
  simp only [dbind]
  rw [readCount_writeAll _ _ (fun p => decide (p.1 < 2 ^ 32) && p.2.wf)
    (fun x r hx => read_write_user_pair x r hx) c.users rest (by
      intro x hxmem
      rw [List.all_eq_true] at husers
      exact husers x hxmem)]

theorem read_write_join_room_response (r : JoinRoomResponse) (rest : Bytes)
    (h : r.wf = true) :
    JoinRoomResponse.read_binary (r.write_binary ++ rest) = .ok (r, rest) := by
  simp only [JoinRoomResponse.wf, Bool.and_eq_true, decide_eq_true_eq] at h
  obtain ⟨⟨hst, _hlen⟩, husers⟩ := h
  simp only [JoinRoomResponse.write_binary, JoinRoomResponse.read_binary,
    List.append_assoc]
  rw [read_write_room_state _ _ hst]
  simp only [dbind]
  rw [read_write_uleb]
  simp only [dbind]
  rw [readCount_writeAll _ _ UserInfo.wf
    (fun x r hx => read_write_user_info x r hx) r.users _ (by
      intro x hxmem
      rw [List.all_eq_true] at husers
      exact husers x hxmem)]
  simp only [dbind]
  rw [read_write_bool]

theorem read_write_client_command (c : ClientCommand) (rest : Bytes)
    (h : c.wf = true) :
    ClientCommand.read_binary (c.write_binary ++ rest) = .ok (c, rest) := by
  cases c with
  | ping =>
    simp only [ClientCommand.write_binary, ClientCommand.read_binary,
      List.append_assoc]
    rw [read_write_u8 _ (by norm_num)]
    rfl
  | authenticate t =>
    simp only [ClientCommand.wf, Bool.and_eq_true, decide_eq_true_eq] at h
    obtain ⟨hlen, _⟩ := h
    simp only [ClientCommand.write_binary, ClientCommand.read_binary,
      List.append_assoc]
    rw [read_write_u8 _ (by norm_num)]
    simp only [dbind]
    rw [read_write_varchar _ _ hlen]
  | chat m =>
    simp only [ClientCommand.wf, Bool.and_eq_true, decide_eq_true_eq] at h
    obtain ⟨hlen, _⟩ := h
    simp only [ClientCommand.write_binary, ClientCommand.read_binary,
      List.append_assoc]
    rw [read_write_u8 _ (by norm_num)]
    simp only [dbind]
    rw [read_write_varchar _ _ hlen]
  | touches fs =>
    simp only [ClientCommand.wf, Bool.and_eq_true, decide_eq_true_eq] at h
    obtain ⟨_hlen, hall⟩ := h
    simp only [ClientCommand.write_binary, ClientCommand.read_binary,
      List.append_assoc]
    rw [read_write_u8 _ (by norm_num)]
    simp only [dbind]
    rw [read_write_uleb]
    simp only [dbind]
    rw [readCount_writeAll _ _ TouchFrame.wf
      (fun x r hx => read_write_touch_frame x r hx) fs _ (by
        intro x hxmem
        rw [List.all_eq_true] at hall
        exact hall x hxmem)]
  | judges js =>
    simp only [ClientCommand.wf, Bool.and_eq_true, decide_eq_true_eq] at h
    obtain ⟨_hlen, hall⟩ := h
    simp only [ClientCommand.write_binary, ClientCommand.read_binary,
      List.append_assoc]
    rw [read_write_u8 _ (by norm_num)]
    simp only [dbind]
    rw [read_write_uleb]
    simp only [dbind]
    rw [readCount_writeAll _ _ JudgeEvent.wf
      (fun x r hx => read_write_judge_event x r hx) js _ (by
        intro x hxmem
        rw [List.all_eq_true] at hall
        exact hall x hxmem)]
  | create_room r =>
    simp only [ClientCommand.wf] at h
    simp only [ClientCommand.write_binary, ClientCommand.read_binary,
      List.append_assoc]
    rw [read_write_u8 _ (by norm_num)]
    simp only [dbind]
    rw [read_write_room_id _ _ h]
  | join_room r m =>
    simp only [ClientCommand.wf] at h
    simp only [ClientCommand.write_binary, ClientCommand.read_binary,
      List.append_assoc]
    rw [read_write_u8 _ (by norm_num)]
    simp only [dbind]
    rw [read_write_room_id _ _ h]
    simp only [dbind]
    rw [read_write_bool]
  | leave_room =>
    simp only [ClientCommand.write_binary, ClientCommand.read_binary,
      List.append_assoc]
    rw [read_write_u8 _ (by norm_num)]
    rfl
  | lock_room f =>
    simp only [ClientCommand.write_binary, ClientCommand.read_binary,
      List.append_assoc]
    rw [read_write_u8 _ (by norm_num)]
    simp only [dbind]
    rw [read_write_bool]
  | cycle_room f =>
    simp only [ClientCommand.write_binary, ClientCommand.read_binary,
      List.append_assoc]
    rw [read_write_u8 _ (by norm_num)]
    simp only [dbind]
    rw [read_write_bool]
  | select_chart cid =>
    simp only [ClientCommand.wf, decide_eq_true_eq] at h
    simp only [ClientCommand.write_binary, ClientCommand.read_binary,
      List.append_assoc, read_i32, write_i32]
    rw [read_write_u8 _ (by norm_num)]
    simp only [dbind]
    rw [read_write_u32 _ h]
  | request_start =>
    simp only [ClientCommand.write_binary, ClientCommand.read_binary,
      List.append_assoc]
    rw [read_write_u8 _ (by norm_num)]
    rfl
  | ready =>
    simp only [ClientCommand.write_binary, ClientCommand.read_binary,
      List.append_assoc]
    rw [read_write_u8 _ (by norm_num)]
    rfl
  | cancel_ready =>
    simp only [ClientCommand.write_binary, ClientCommand.read_binary,
      List.append_assoc]
    rw [read_write_u8 _ (by norm_num)]
    rfl
  | played cid =>
    simp only [ClientCommand.wf, decide_eq_true_eq] at h
    simp only [ClientCommand.write_binary, ClientCommand.read_binary,
      List.append_assoc, read_i32, write_i32]
    rw [read_write_u8 _ (by norm_num)]
    simp only [dbind]
    rw [read_write_u32 _ h]
  | abort =>
    simp only [ClientCommand.write_binary, ClientCommand.read_binary,
      List.append_assoc]
    rw [read_write_u8 _ (by norm_num)]
    rfl
  | unknown t =>
    simp only [ClientCommand.wf] at h
    exact absurd h (by simp)

theorem read_write_server_command (c : ServerCommand) (rest : Bytes)
    (h : c.wf = true) :
    ServerCommand.read_binary (c.write_binary ++ rest) = .ok (c, rest) := by
  cases c with
  | pong =>
    simp only [ServerCommand.write_binary, ServerCommand.read_binary,
      List.append_assoc]
    rw [read_write_u8 _ (by norm_num)]
    rfl
  | authenticate_ok u oroom =>
    cases oroom with
    | some rs =>
      simp only [ServerCommand.wf, Bool.and_eq_true] at h
      obtain ⟨hu, hrs⟩ := h
      simp only [ServerCommand.write_binary, ServerCommand.read_binary,
        List.append_assoc]
      rw [read_write_u8 _ (by norm_num)]
      simp only [dbind]
      rw [read_write_bool]
      simp only [dbind, if_pos]
      rw [read_write_user_info _ _ hu]
      simp only [dbind]
      rw [read_write_bool]
      simp only [dbind, if_pos]
      rw [read_write_client_room_state _ _ hrs]
    | none =>
      simp only [ServerCommand.wf] at h
      simp only [ServerCommand.write_binary, ServerCommand.read_binary,
        List.append_assoc]
      rw [read_write_u8 _ (by norm_num)]
      simp only [dbind]
      rw [read_write_bool]
      simp only [dbind, if_pos]
      rw [read_write_user_info _ _ h]
      simp only [dbind]
      rw [read_write_bool]
      simp only [dbind]
      norm_num
  | authenticate_err e =>
    simp only [ServerCommand.write_binary, ServerCommand.read_binary,
      List.append_assoc]
    rw [read_write_u8 _ (by norm_num)]
    simp only [dbind]
    rw [read_write_bool]
    simp only [dbind]
    norm_num
    rw [read_write_string]
  | ack_ok t =>
    simp only [ServerCommand.wf] at h
    have ht : t = 2 ∨ t = 8 ∨ t = 11 ∨ t = 12 ∨ t = 13 ∨ t = 14 ∨ t = 15 ∨
        t = 16 ∨ t = 17 ∨ t = 18 ∨ t = 19 := by
      simpa [ackTags] using h
    rcases ht with rfl | rfl | rfl | rfl | rfl | rfl | rfl | rfl | rfl |
      rfl | rfl <;> rfl
  | ack_err t e =>
    simp only [ServerCommand.wf, Bool.and_eq_true] at h
    obtain ⟨ht0, _⟩ := h
    have ht : t = 2 ∨ t = 8 ∨ t = 11 ∨ t = 12 ∨ t = 13 ∨ t = 14 ∨ t = 15 ∨
        t = 16 ∨ t = 17 ∨ t = 18 ∨ t = 19 := by
      simpa [ackTags] using ht0
    rcases ht with rfl | rfl | rfl | rfl | rfl | rfl | rfl | rfl | rfl |
      rfl | rfl <;>
    · simp only [ServerCommand.write_binary, ServerCommand.read_binary,
        List.append_assoc]
      rw [read_write_u8 _ (by norm_num)]
      simp only [dbind]
      rw [read_write_bool]
      simp only [dbind]
      norm_num [ackTags]
      rw [read_write_string]
  | touches p fs =>
    simp only [ServerCommand.wf, Bool.and_eq_true, decide_eq_true_eq] at h
    obtain ⟨⟨hp, _hlen⟩, hall⟩ := h
    simp only [ServerCommand.write_binary, ServerCommand.read_binary,
      List.append_assoc, read_i32, write_i32]
    rw [read_write_u8 _ (by norm_num)]
    simp only [dbind]
    rw [read_write_u32 _ hp]
    simp only [dbind]
    rw [read_write_uleb]
    simp only [dbind]
    rw [readCount_writeAll _ _ TouchFrame.wf
      (fun x r hx => read_write_touch_frame x r hx) fs _ (by
        intro x hxmem
        rw [List.all_eq_true] at hall
        exact hall x hxmem)]
  | judges p js =>
    simp only [ServerCommand.wf, Bool.and_eq_true, decide_eq_true_eq] at h
    obtain ⟨⟨hp, _hlen⟩, hall⟩ := h
    simp only [ServerCommand.write_binary, ServerCommand.read_binary,
      List.append_assoc, read_i32, write_i32]
    rw [read_write_u8 _ (by norm_num)]
    simp only [dbind]
    rw [read_write_u32 _ hp]
    simp only [dbind]
    rw [read_write_uleb]
    simp only [dbind]
    rw [readCount_writeAll _ _ JudgeEvent.wf
      (fun x r hx => read_write_judge_event x r hx) js _ (by
        intro x hxmem
        rw [List.all_eq_true] at hall
        exact hall x hxmem)]
  | s_message m =>
    simp only [ServerCommand.wf] at h
    simp only [ServerCommand.write_binary, ServerCommand.read_binary,
      List.append_assoc]
    rw [read_write_u8 _ (by norm_num)]
    simp only [dbind]
    rw [read_write_message _ _ h]
  | change_state s =>
    simp only [ServerCommand.wf] at h
    simp only [ServerCommand.write_binary, ServerCommand.read_binary,
      List.append_assoc]
    rw [read_write_u8 _ (by norm_num)]
    simp only [dbind]
    rw [read_write_room_state _ _ h]
  | change_host ih =>
    simp only [ServerCommand.write_binary, ServerCommand.read_binary,
      List.append_assoc]
    rw [read_write_u8 _ (by norm_num)]
    simp only [dbind]
    rw [read_write_bool]
  | join_room_ok r =>
    simp only [ServerCommand.wf] at h
    simp only [ServerCommand.write_binary, ServerCommand.read_binary,
      List.append_assoc]
    rw [read_write_u8 _ (by norm_num)]
    simp only [dbind]
    rw [read_write_bool]
    simp only [dbind, if_pos]
    rw [read_write_join_room_response _ _ h]
  | join_room_err e =>
    simp only [ServerCommand.write_binary, ServerCommand.read_binary,
      List.append_assoc]
    rw [read_write_u8 _ (by norm_num)]
    simp only [dbind]
    rw [read_write_bool]
    simp only [dbind]
    norm_num
    rw [read_write_string]
  | on_join_room u =>
    simp only [ServerCommand.wf] at h
    simp only [ServerCommand.write_binary, ServerCommand.read_binary,
      List.append_assoc]
    rw [read_write_u8 _ (by norm_num)]
    simp only [dbind]
    rw [read_write_user_info _ _ h]

/-! ## Claim theorems -/

/-- C6: the claim says the f16 → f32 → f16 round trip returns every `u16`
bit pattern, including denormals, exactly.  The code disagrees on denormals:
the denormal branch of `f32_to_f16` shifts the 24-bit mantissa right by
`(-1 - exp + 13) ≥ 27` bits, which is 13 too many (the `+13` double-counts
the 23-to-10-bit mantissa narrowing already implied by the shift base), so
every denormal input collapses to a signed zero.  At the failing input
`0x0001` (the smallest positive binary16 denormal) the round trip yields `0`
instead of `0x0001`; the infinity, NaN and normal cases round-trip exactly,
confirming the rest of the claim (`0x3C00` is 1.0, `0x7C01` a NaN,
`0xFC00` is −∞). -/
theorem f16_roundtrip_denormal_bug :
    f32_to_f16 (f16_to_f32 0x0001) = 0 ∧
    f32_to_f16 (f16_to_f32 0x03FF) = 0 ∧
    f32_to_f16 (f16_to_f32 0x8001) = 0x8000 ∧
    f32_to_f16 (f16_to_f32 0x3C00) = 0x3C00 ∧
    f32_to_f16 (f16_to_f32 0x7C01) = 0x7C01 ∧
    f32_to_f16 (f16_to_f32 0xFC00) = 0xFC00 := by
  refine ⟨by decide, by decide, by decide, by decide, by decide, by decide⟩

/-- C9: `BinaryReader::take` guards with `pos_ + n > size_`, but the sum is
computed in `size_t` and can wrap.  With a one-byte buffer fully consumed
(`pos = size = 1`) and the attacker-controlled request `n = 2^64 - 1`
(producible as a ten-byte ULEB length prefix, third conjunct), the wrapped
sum is `0`, the check passes (first conjunct: no `unexpected EOF` is
thrown), although `n` exceeds the zero remaining bytes (second conjunct),
so `take` hands out an out-of-bounds pointer — the claim that `take` never
yields data outside the buffer, including when `pos + n` overflows, is
exactly what fails. -/
theorem take_bounds_check_overflow_bug :
    take_eof_check 1 (2 ^ 64 - 1) 1 = false ∧
    1 + (2 ^ 64 - 1) > 1 ∧
    read_uleb [255, 255, 255, 255, 255, 255, 255, 255, 255, 1] =
      .ok (2 ^ 64 - 1, []) := by
  refine ⟨by decide, by norm_num, by rfl⟩

/-- C10: `BinaryReader::read_uleb` on any finite buffer either returns a
value leaving a suffix of the buffer unread (so it consumes at most the
remaining bytes) or throws `unexpected EOF`; in particular it terminates,
because every iteration consumes one byte via `read_byte`, which fails at
the end of the buffer.  (In the embedding `read_uleb` is structurally
recursive on the buffer, which is the same observation.) -/
theorem read_uleb_terminates (l : Bytes) :
    (∃ v rest, read_uleb l = .ok (v, rest) ∧ rest.length ≤ l.length) ∨
    read_uleb l = .error "unexpected EOF" := by
  induction l with
  | nil => right; rfl
  | cons b bs ih =>
    rw [read_uleb]
    by_cases hb : b &&& 128 = 0
    · left
      refine ⟨b &&& 127, bs, ?_, by simp⟩
      simp [hb]
    · simp only [hb, if_neg (by simpa using hb)]
      rcases ih with ⟨v, r, hok, hle⟩ | herr
      · rw [hok]
        left
        exact ⟨(b &&& 127) ||| (v <<< 7), r, rfl, by simp; omega⟩
      · rw [herr]
        right
        rfl

theorem validate_iff (s : Bytes) :
    RoomId.validate s = true ↔
      (1 ≤ s.length ∧ s.length ≤ 20 ∧
        ∀ c ∈ s, (48 ≤ c ∧ c ≤ 57) ∨ (65 ≤ c ∧ c ≤ 90) ∨
          (97 ≤ c ∧ c ≤ 122) ∨ c = 45 ∨ c = 95) := by
  rw [RoomId.validate]
  split
  next hcond =>
    simp only [List.isEmpty_iff, Bool.or_eq_true, decide_eq_true_eq] at hcond
    constructor
    · intro h
      exact absurd h (by simp)
    · rintro ⟨h1, h2, _⟩
      rcases hcond with hnil | hlong
      · rw [hnil] at h1
        simp at h1
      · omega
  next hcond =>
    simp only [List.isEmpty_iff, Bool.or_eq_true, decide_eq_true_eq,
      not_or] at hcond
    obtain ⟨hne, hlen⟩ := hcond
    have h1 : 1 ≤ s.length := by
      cases s with
      | nil => exact absurd rfl hne
      | cons a l => simp
    rw [List.all_eq_true]
    constructor
    · intro h
      refine ⟨h1, by omega, ?_⟩
      intro c hcmem
      have := h c hcmem
      simp only [isalnum, Bool.or_eq_true, beq_iff_eq, Bool.and_eq_true,
        decide_eq_true_eq] at this
      omega
    · rintro ⟨_, _, h3⟩
      intro c hcmem
      have := h3 c hcmem
      simp only [isalnum, Bool.or_eq_true, beq_iff_eq, Bool.and_eq_true,
        decide_eq_true_eq]
      omega

/-- C7: decoding a RoomId field from the encoding of a string `s` succeeds
iff `1 ≤ len(s) ≤ 20` and every byte of `s` is an ASCII digit, letter, dash
or underscore; otherwise `RoomId::read_binary` throws (`string too long`
from the varchar cap, or `invalid room id` from `validate`). -/
theorem room_id_decode_succeeds_iff (s : Bytes) (rest : Bytes) :
    decSucceeded (RoomId.read_binary (write_string s ++ rest)) = true ↔
      (1 ≤ s.length ∧ s.length ≤ 20 ∧
        ∀ c ∈ s, (48 ≤ c ∧ c ≤ 57) ∨ (65 ≤ c ∧ c ≤ 90) ∨
          (97 ≤ c ∧ c ≤ 122) ∨ c = 45 ∨ c = 95) := by
  rw [← validate_iff]
  by_cases hlen : s.length ≤ 20
  · have hred : RoomId.read_binary (write_string s ++ rest) =
        if RoomId.validate s then .ok (s, rest)
        else .error "invalid room id" := by
      simp only [RoomId.read_binary]
      rw [read_write_varchar s rest hlen]
      rfl
    rw [hred]
    by_cases hv : RoomId.validate s = true
    · simp [hv, decSucceeded]
    · simp only [Bool.not_eq_true] at hv
      simp [hv, decSucceeded]
  · have h20 : 20 < s.length := by omega
    have herr : RoomId.read_binary (write_string s ++ rest) =
        .error "string too long" := by
      simp only [RoomId.read_binary, read_varchar, write_string,
        List.append_assoc]
      rw [read_write_uleb]
      simp only [dbind, if_pos h20]
    rw [herr]
    constructor
    · intro hk
      exact absurd hk (by simp [decSucceeded])
    · intro hval
      have := (validate_iff s).mp hval
      omega

/-- C5 counterexample: the claim says a first byte outside the 16 defined
`ClientCommandType` discriminants, or a judgement byte outside the 6 defined
`Judgement` discriminants, makes the decode fail.  It does not:
`ClientCommand::read_binary` casts the byte with `static_cast` and its
switch has no `default`, so the byte `16` decodes successfully (to a command
holding the raw tag and no payload), and `JudgeEvent::read_binary` stores
any judgement byte unchecked, so a `Judges` command with judgement byte `6`
also decodes successfully. -/
theorem invalid_discriminant_decode_succeeds_cex :
    ClientCommand.read_binary [16] = .ok (.unknown 16, []) ∧
    ClientCommand.read_binary [4, 1, 0, 0, 0, 0, 0, 0, 0, 0, 0, 0, 0, 0, 6] =
      .ok (.judges [⟨0, 0, 0, 6⟩], []) := by
  exact ⟨by decide, by decide⟩

/-- C5 amended: decoding a byte sequence whose first byte `b` is outside
the 16 defined discriminants does not raise an error: it succeeds, yielding
the command that carries the raw tag `b` with no payload consumed (the
C++ switch falls through); and a judgement byte outside the 6 defined
`Judgement` values is likewise accepted verbatim — no range check exists,
so any well-typed judge event, in particular one with judgement ≥ 6,
round-trips through the decoder without a protocol error. -/
theorem invalid_discriminant_decode_amended (b : Nat) (rest : Bytes)
    (h16 : 16 ≤ b) (h256 : b < 256) (e : JudgeEvent) (hj : e.wf = true) :
    ClientCommand.read_binary (b :: rest) = .ok (.unknown b, rest) ∧
    JudgeEvent.read_binary (e.write_binary ++ rest) = .ok (e, rest) := by
  constructor
  · interval_cases b <;> rfl
  · exact read_write_judge_event e rest hj

/-- Witness for the C5 amended theorem at `b = 16` and a judge event whose
judgement byte is `6` (the first undefined `Judgement` value). -/
theorem invalid_discriminant_decode_amended_witness :
    ClientCommand.read_binary (16 :: [7]) = .ok (.unknown 16, [7]) ∧
    JudgeEvent.read_binary
        ((JudgeEvent.mk 0 0 0 6).write_binary ++ [7]) =
      .ok (⟨0, 0, 0, 6⟩, [7]) :=
  invalid_discriminant_decode_amended 16 [7] (by decide) (by decide)
    ⟨0, 0, 0, 6⟩ (by decide)

/-- C8: for every defined `ClientCommand` and `ServerCommand` variant with a
well-typed payload, decoding the encoding returns the original command and
leaves exactly the trailing bytes.  The decoders missing from this
server-only repository (the client side) are modelled from the spec;
`ClientCommand::read_binary` and `ServerCommand::write_binary` are the
source functions. -/
theorem wire_roundtrip :
    (∀ (c : ClientCommand) (rest : Bytes), c.wf = true →
      ClientCommand.read_binary (c.write_binary ++ rest) = .ok (c, rest)) ∧
    (∀ (sc : ServerCommand) (rest : Bytes), sc.wf = true →
      ServerCommand.read_binary (sc.write_binary ++ rest) = .ok (sc, rest)) :=
  ⟨read_write_client_command, read_write_server_command⟩

/-- C1: with the room in `WaitForReady`, `check_all_ready` transitions to
`Playing` with empty `results` and `aborted`, broadcasts
`Message::StartPlaying` followed by `ChangeState(Playing)` (in that order),
and stores the bit pattern of −∞ into the `game_time` of every member, exactly
when every current member and every current monitor is in `started`;
otherwise it changes nothing and sends nothing. -/
theorem check_all_ready_wait_for_ready_iff (r : Room)
    (h : r.state.type = .WaitForReady) :
    ((r.check_all_ready.1.state = InternalRoomState.playing ∧
      r.check_all_ready.2.1 =
        [.broadcast (.s_message .start_playing),
         .broadcast (.change_state RoomState.playing)] ∧
      r.check_all_ready.2.2 =
        r.users.map fun u => (u.id, NEG_INF_F32_BITS)) ↔
     ((∀ u ∈ r.users, u.id ∈ r.state.started) ∧
      (∀ m ∈ r.monitors, m.id ∈ r.state.started))) ∧
    (¬ ((∀ u ∈ r.users, u.id ∈ r.state.started) ∧
        (∀ m ∈ r.monitors, m.id ∈ r.state.started)) →
      r.check_all_ready = (r, [], [])) := by
  have hplay : r.state ≠ InternalRoomState.playing := by
    intro he
    rw [he] at h
    simp [InternalRoomState.playing] at h
  have hcond : ((r.users.all fun usr => r.state.started.contains usr.id) &&
      (r.monitors.all fun usr => r.state.started.contains usr.id)) = true ↔
      ((∀ u ∈ r.users, u.id ∈ r.state.started) ∧
       (∀ m ∈ r.monitors, m.id ∈ r.state.started)) := by
    simp [List.all_eq_true]
  rw [← hcond]
  unfold Room.check_all_ready
  split
  next heq =>
    by_cases hall : ((r.users.all fun usr => r.state.started.contains usr.id) &&
        (r.monitors.all fun usr => r.state.started.contains usr.id)) = true
    · rw [if_pos hall]
      constructor
      · simp only [hall, iff_true]
        exact ⟨trivial, rfl, trivial⟩
      · intro hn
        exact absurd hall hn
    · rw [if_neg hall]
      constructor
      · constructor
        · rintro ⟨h1, _⟩
          exact absurd h1 hplay
        · intro hfalse
          exact absurd hfalse hall
      · intro _
        rfl
  next heq => rw [h] at heq; cases heq
  next heq => rw [h] at heq; cases heq

/-- Witness for C1: a two-member room in `WaitForReady` with both members
in `started` starts the game: state becomes `Playing{∅, ∅}`, the broadcasts
are `StartPlaying` then `ChangeState(Playing)`, and both member game
times are set to the −∞ bit pattern. -/
theorem check_all_ready_wait_for_ready_witness :
    ((Room.mk [82] (some ⟨1, [65], false⟩)
        (InternalRoomState.wait_for_ready [1, 2]) false false false
        [some ⟨1, [65], false⟩, some ⟨2, [66], false⟩] [] none).check_all_ready.1.state =
      InternalRoomState.playing ∧
    (Room.mk [82] (some ⟨1, [65], false⟩)
        (InternalRoomState.wait_for_ready [1, 2]) false false false
        [some ⟨1, [65], false⟩, some ⟨2, [66], false⟩] [] none).check_all_ready.2.1 =
      [.broadcast (.s_message .start_playing),
       .broadcast (.change_state RoomState.playing)] ∧
    (Room.mk [82] (some ⟨1, [65], false⟩)
        (InternalRoomState.wait_for_ready [1, 2]) false false false
        [some ⟨1, [65], false⟩, some ⟨2, [66], false⟩] [] none).check_all_ready.2.2 =
      (Room.mk [82] (some ⟨1, [65], false⟩)
        (InternalRoomState.wait_for_ready [1, 2]) false false false
        [some ⟨1, [65], false⟩, some ⟨2, [66], false⟩] [] none).users.map
          fun u => (u.id, NEG_INF_F32_BITS)) :=
  (check_all_ready_wait_for_ready_iff _ rfl).1.mpr (by decide)

theorem filter_live_length (l : List (Option User)) :
    (l.filter fun w => !w.isNone).length = (l.filterMap fun w => w).length := by
  induction l with
  | nil => rfl
  | cons w l ih => cases w <;> simp_all

/-- C2: adding a member to a room fails exactly when, after the expired
weak references have been compacted out of the member list, the count of
live members is already at the cap (`ROOM_MAX_USERS = 8`); adding a
monitor always succeeds, whatever the monitor count. -/
theorem add_user_capacity (r : Room) (user : Option User) :
    ((r.add_user user false).1 = false ↔
      ROOM_MAX_USERS ≤ r.users.length) ∧
    (r.add_user user true).1 = true ∧
    ROOM_MAX_USERS = 8 := by
  refine ⟨?_, by simp [Room.add_user], rfl⟩
  simp only [Room.add_user]
  split
  next hmon => exact absurd hmon (by simp)
  next _ =>
    split
    next hcond =>
      rw [filter_live_length] at hcond
      simp [Room.users, hcond]
    next hcond =>
      rw [filter_live_length] at hcond
      simp [Room.users, hcond]

theorem filter_keep_users (l : List (Option User)) (u : User) :
    ((l.filter fun w =>
        match w with
        | none => false
        | some s => s.id != u.id).filterMap fun w => w) =
    (l.filterMap fun w => w).filter fun s => s.id != u.id := by
  induction l with
  | nil => rfl
  | cons w l ih =>
    cases w with
    | none => simpa using ih
    | some s =>
      by_cases hs : (s.id != u.id) = true <;> simp [hs, ih]

/-- C3 counterexample: the claim says `on_user_leave` reports the room
should be dropped whenever no members remain, regardless of whether the
leaver was the host.  In the code the emptiness check is nested inside the
`check_host` branch: in a room whose host reference is expired
(`host.lock()` null), when its single non-host member leaves, no members
remain yet `on_user_leave` returns `false` (room kept). -/
theorem on_user_leave_nonhost_empty_cex :
    ((Room.mk [82] none InternalRoomState.select_chart false false false
        [some ⟨2, [66], false⟩] [] none).on_user_leave ⟨2, [66], false⟩
        0).2.2.2 = false ∧
    ((Room.mk [82] none InternalRoomState.select_chart false false false
        [some ⟨2, [66], false⟩] [] none).on_user_leave ⟨2, [66], false⟩
        0).1.users = [] :=
  ⟨rfl, rfl⟩

/-- C3 amended: `on_user_leave` reports that the room should be dropped iff
the leaver is still recorded as host after the removal (the host weak
reference is live and carries the id of the leaver) and no members remain; a
non-host leaver never triggers destruction, even when no members remain.
Monitors do not count towards the member set in this check (a departing
host with only monitors left does drop the room). -/
theorem on_user_leave_drop_iff (r : Room) (u : User) (pick : Nat) :
    (r.on_user_leave u pick).2.2.2 = true ↔
      (r.check_host u = true ∧
        (if u.monitor then r.users
         else r.users.filter fun s => s.id != u.id) = []) := by
  unfold Room.on_user_leave
  by_cases hm : u.monitor = true
  · simp only [if_pos hm]
    split
    next hch =>
      have hch2 : r.check_host u = true := hch
      split
      next he =>
        have he2 : r.users.isEmpty = true := he
        simp only [hch2, true_and]
        simpa using he2
      next he =>
        have he2 : ¬ r.users.isEmpty = true := he
        simp only [Bool.false_eq_true, false_iff, not_and]
        intro _ hnil
        rw [hnil] at he2
        exact he2 rfl
    next hch =>
      have hch2 : ¬ r.check_host u = true := hch
      simp only [Bool.false_eq_true, false_iff, not_and]
      intro hcontra
      exact absurd hcontra hch2
  · simp only [Bool.not_eq_true] at hm
    simp only [if_neg (show ¬ (u.monitor = true) by simp [hm])]
    have husers : ((r.users_.filter fun w =>
        match w with
        | none => false
        | some s => s.id != u.id).filterMap fun w => w) =
        r.users.filter fun s => s.id != u.id :=
      filter_keep_users r.users_ u
    split
    next hch =>
      have hch2 : r.check_host u = true := hch
      split
      next he =>
        have he2 : ((r.users_.filter fun w =>
            match w with
            | none => false
            | some s => s.id != u.id).filterMap fun w => w).isEmpty
            = true := he
        rw [husers] at he2
        simp only [hch2, true_and]
        simpa using he2
      next he =>
        have he2 : ¬ ((r.users_.filter fun w =>
            match w with
            | none => false
            | some s => s.id != u.id).filterMap fun w => w).isEmpty
            = true := he
        rw [husers] at he2
        simp only [Bool.false_eq_true, false_iff, not_and]
        intro _ hnil
        rw [hnil] at he2
        exact he2 rfl
    next hch =>
      have hch2 : ¬ r.check_host u = true := hch
      simp only [Bool.false_eq_true, false_iff, not_and]
      intro hcontra
      exact absurd hcontra hch2

/-- C4: when a game ends in a room with `cycle = true` and a non-empty
member list (every member having a result or being aborted), the new host
is the member at position `(index of the current host) + 1 (mod member
count)`; the broadcasts are `GameEnd`, `NewHost(new)`, then
`ChangeHost{false}` to the old host, `ChangeHost{true}` to the new host,
and finally `ChangeState(SelectChart)`. -/
theorem check_all_ready_cycle_next_host (r : Room) (h : User) (i : Nat)
    (hst : r.state.type = .Playing)
    (hdone : ∀ u ∈ r.users, u.id ∈ r.state.results.map Prod.fst ∨
      u.id ∈ r.state.aborted)
    (hcyc : r.cycle = true)
    (hhost : r.host = some h)
    (hidx : r.users.findIdx? (fun usr => usr.id == h.id) = some i) :
    r.check_all_ready.1.host =
      some (r.users.getD ((i + 1) % r.users.length) default) ∧
    r.check_all_ready.2.1 =
      [.broadcast (.s_message .game_end),
       .broadcast (.s_message
         (.new_host (r.users.getD ((i + 1) % r.users.length) default).id)),
       .direct h.id (.change_host false),
       .direct (r.users.getD ((i + 1) % r.users.length) default).id
         (.change_host true),
       .broadcast (.change_state
         (RoomState.select_chart (r.chart.map Chart.id)))] := by
  have hall : (r.users.all fun usr =>
      (r.state.results.map Prod.fst).contains usr.id ||
      r.state.aborted.contains usr.id) = true := by
    rw [List.all_eq_true]
    intro x hx
    rcases hdone x hx with hres | hab
    · simp [hres]
    · simp [hab]
  have hne : r.users ≠ [] := by
    intro hnil
    rw [hnil] at hidx
    simp at hidx
  unfold Room.check_all_ready
  split
  next heq => rw [hst] at heq; cases heq
  next heq =>
    rw [if_pos hall,
      if_pos (show ({ r with state := InternalRoomState.select_chart } :
        Room).cycle = true from hcyc),
      show Room.users { r with state := InternalRoomState.select_chart } =
        r.users from rfl]
    rw [if_neg (show ¬ (r.users.isEmpty = true) by simpa using hne)]
    simp only [hhost, hidx]
    exact ⟨trivial, rfl⟩
  next heq => rw [hst] at heq; cases heq

/-- Witness for C4, the example from the spec: members `[A, B, C]` (ids 1, 2, 3)
with host `B` and every member aborted; after the game ends the new host is
`C`, `B` receives `ChangeHost{false}` and `C` receives `ChangeHost{true}`. -/
theorem check_all_ready_cycle_next_host_witness :
    (Room.mk [82] (some ⟨2, [66], false⟩)
      ⟨.Playing, [], [], [1, 2, 3]⟩ false false true
      [some ⟨1, [65], false⟩, some ⟨2, [66], false⟩, some ⟨3, [67], false⟩]
      [] none).check_all_ready.1.host = some ⟨3, [67], false⟩ ∧
    (Room.mk [82] (some ⟨2, [66], false⟩)
      ⟨.Playing, [], [], [1, 2, 3]⟩ false false true
      [some ⟨1, [65], false⟩, some ⟨2, [66], false⟩, some ⟨3, [67], false⟩]
      [] none).check_all_ready.2.1 =
      [.broadcast (.s_message .game_end),
       .broadcast (.s_message (.new_host 3)),
       .direct 2 (.change_host false),
       .direct 3 (.change_host true),
       .broadcast (.change_state (RoomState.select_chart none))] :=
  check_all_ready_cycle_next_host _ ⟨2, [66], false⟩ 1 rfl (by decide)
    rfl rfl (by decide)

/-- Witness for C8: a concrete `JoinRoom` client command (room id `"R1"`,
as monitor) and a concrete `SMessage(Chat)` server command round-trip. -/
theorem wire_roundtrip_witness :
    ClientCommand.read_binary
        ((ClientCommand.join_room [82, 49] true).write_binary ++ []) =
      .ok (.join_room [82, 49] true, []) ∧
    ServerCommand.read_binary
        ((ServerCommand.s_message (.chat 7 [104, 105])).write_binary ++ []) =
      .ok (.s_message (.chat 7 [104, 105]), []) :=
  ⟨wire_roundtrip.1 _ [] (by decide), wire_roundtrip.2 _ [] (by decide)⟩

end PhiraMP




